import Mathlib

/-!
# OpenCppCoverage: the executed-address manager

A shallow embedding of `CppCoverage/ExecutedAddressManager.cpp` and of the two
string helpers `GetExportTypesAsString` and `GetExportTypeText` of
`CppCoverage/ProgramOptions.cpp`, followed by theorems about them.

Conventions of the embedding.

* `void*` addresses, `unsigned int` line numbers and `unsigned char` opcode
  bytes are natural numbers: the code never does arithmetic on them, it only
  compares them, so no wrap-around can occur.
* `std::wstring` and `std::string` are `String`.
* A container is the list of its entries in iteration order.  `std::map` keeps
  its entries ascending by key.  `std::unordered_map` has an
  implementation-defined iteration order; the embedding iterates in insertion
  order, and no theorem below depends on that choice.
* `Instruction*` is the location of a list node: the position of the module in
  `modules_`, the file name, the line number and the position in the
  `std::list`.  None of the containers ever moves or erases a node, which is
  what makes a location as good as the node's address.
* `THROW` leaves the object as it is at the point of the throw; every operation
  therefore returns the outcome together with the state the object is left in.
* The `LOG_TRACE` and `LOG_INFO` statements write to the log only and are left
  out.
-/

namespace CppCoverage

/-! ## Containers -/

/-- The member `find` of a map: the value stored under `key`, if any. -/
def mapFind {κ β : Type} [DecidableEq κ] : List (κ × β) → κ → Option β
  | [], _ => none
  | (k, v) :: rest, key => if k = key then some v else mapFind rest key

/-- A write through a reference to the value stored under `key`. -/
def mapModify {κ β : Type} [DecidableEq κ] (g : β → β) : List (κ × β) → κ → List (κ × β)
  | [], _ => []
  | (k, v) :: rest, key =>
    if k = key then (k, g v) :: rest else (k, v) :: mapModify g rest key

/-- The container effect of `operator[]` on a `std::unordered_map`: an absent
key is inserted with a value-initialised value, a present key changes nothing. -/
def unorderedMapIndex {κ β : Type} [DecidableEq κ] (dflt : β) : List (κ × β) → κ → List (κ × β)
  | [], key => [(key, dflt)]
  | (k, v) :: rest, key =>
    if k = key then (k, v) :: rest else (k, v) :: unorderedMapIndex dflt rest key

/-- The container effect of `operator[]` on a `std::map<unsigned int, _>`: an
absent key is inserted, with a value-initialised value, at its place in the
ascending order of keys; a present key changes nothing. -/
def orderedMapIndex {β : Type} (dflt : β) : List (Nat × β) → Nat → List (Nat × β)
  | [], key => [(key, dflt)]
  | (k, v) :: rest, key =>
    if key < k then (key, dflt) :: (k, v) :: rest
    else if k = key then (k, v) :: rest
    else (k, v) :: orderedMapIndex dflt rest key

/-- A write through a reference to the element at position `n` of a sequence. -/
def seqModify {α : Type} (g : α → α) : List α → Nat → List α
  | [], _ => []
  | x :: rest, 0 => g x :: rest
  | x :: rest, n + 1 => x :: seqModify g rest n

/-! ## Data model -/

/-- The struct `ExecutedAddressManager::Instruction`. -/
structure Instruction where
  instruction_ : Nat
  hasBeenExecuted_ : Bool
deriving DecidableEq, Repr

/-- The struct `ExecutedAddressManager::Line`. -/
structure Line where
  instructions_ : List Instruction
deriving DecidableEq, Repr

/-- The loop of `Line::HasLineBeenExecuted`. -/
def Line.HasLineBeenExecuted.loop : List Instruction → Bool
  | [] => false
  | instruction :: rest =>
    if instruction.hasBeenExecuted_ then true else Line.HasLineBeenExecuted.loop rest

/-- The method `Line::HasLineBeenExecuted`. -/
def Line.HasLineBeenExecuted (self : Line) : Bool :=
  Line.HasLineBeenExecuted.loop self.instructions_

/-- The struct `ExecutedAddressManager::File`; `lines` is a `std::map`. -/
structure File where
  lines : List (Nat × Line)
deriving DecidableEq, Repr

/-- The struct `ExecutedAddressManager::Module`; `files_` is a
`std::unordered_map`. -/
structure Module where
  name_ : String
  files_ : List (String × File)
deriving DecidableEq, Repr

/-- The value of an `Instruction*` that is not null: where the node lives. -/
structure InstructionPtr where
  module : Nat
  file : String
  line : Nat
  index : Nat
deriving DecidableEq, Repr

/-- The data members of `ExecutedAddressManager`.  Their declarations are in
`ExecutedAddressManager.hpp`; the code uses `modules_` as a sequence of owning
pointers (`push_back`, `back`, `empty`, iteration) and `addressLineMap_` as a
map with unique keys from addresses to `Instruction*` (`emplace`, `find`).  A
pointer is `none` when null. -/
structure ExecutedAddressManager where
  modules_ : List Module
  addressLineMap_ : List (Nat × Option InstructionPtr)
deriving DecidableEq, Repr

/-- The ways a call can end other than by returning.  The first four are the
four `THROW` sites.  `invalidPointer` stands for dereferencing a pointer that
refers to no node, which the source does not check. -/
inductive Error where
  | notCurrentModuleSet
  | addressAlreadyRegister
  | addressShouldBeRegisterFirst
  | lineCannotBeNull
  | invalidPointer
deriving DecidableEq, Repr

/-- The constructor: no module, no address. -/
def ExecutedAddressManager.new : ExecutedAddressManager :=
  { modules_ := [], addressLineMap_ := [] }

/-! ## Following locations -/

/-- The module at position `m` of `modules_`. -/
def ExecutedAddressManager.moduleAt (self : ExecutedAddressManager) (m : Nat) : Option Module :=
  self.modules_[m]?

/-- The file `filename` of the module at position `m`. -/
def ExecutedAddressManager.fileAt (self : ExecutedAddressManager) (m : Nat) (filename : String) :
    Option File :=
  (self.moduleAt m).bind (fun module => mapFind module.files_ filename)

/-- The line `lineNumber` of the file `filename` of the module at position `m`. -/
def ExecutedAddressManager.lineAt (self : ExecutedAddressManager) (m : Nat) (filename : String)
    (lineNumber : Nat) : Option Line :=
  (self.fileAt m filename).bind (fun file => mapFind file.lines lineNumber)

/-- Dereferencing a pointer: the node it refers to, if there is one. -/
def ExecutedAddressManager.deref (self : ExecutedAddressManager) (p : InstructionPtr) :
    Option Instruction :=
  (self.lineAt p.module p.file p.line).bind (fun line => line.instructions_[p.index]?)

/-- The instructions of a line, none when there is no such line. -/
def ExecutedAddressManager.instructionsAt (self : ExecutedAddressManager) (m : Nat)
    (filename : String) (lineNumber : Nat) : List Instruction :=
  match self.lineAt m filename lineNumber with
  | some line => line.instructions_
  | none => []

/-- A write through a reference to the module at position `m`. -/
def ExecutedAddressManager.withModule (self : ExecutedAddressManager) (m : Nat)
    (g : Module → Module) : ExecutedAddressManager :=
  { self with modules_ := seqModify g self.modules_ m }

/-- A write through a reference to a file. -/
def ExecutedAddressManager.withFile (self : ExecutedAddressManager) (m : Nat) (filename : String)
    (g : File → File) : ExecutedAddressManager :=
  self.withModule m (fun module => { module with files_ := mapModify g module.files_ filename })

/-- A write through a reference to a line. -/
def ExecutedAddressManager.withLine (self : ExecutedAddressManager) (m : Nat) (filename : String)
    (lineNumber : Nat) (g : Line → Line) : ExecutedAddressManager :=
  self.withFile m filename (fun file => { file with lines := mapModify g file.lines lineNumber })

/-- A write through an `Instruction*`. -/
def ExecutedAddressManager.store (self : ExecutedAddressManager) (p : InstructionPtr)
    (g : Instruction → Instruction) : ExecutedAddressManager :=
  self.withLine p.module p.file p.line
    (fun line => { line with instructions_ := seqModify g line.instructions_ p.index })

/-! ## Operations -/

/-- The method `SetCurrentModule`: `modules_.push_back(new Module(moduleName))`. -/
def ExecutedAddressManager.SetCurrentModule (self : ExecutedAddressManager) (moduleName : String) :
    ExecutedAddressManager :=
  { self with modules_ := self.modules_ ++ [{ name_ := moduleName, files_ := [] }] }

/-- The method `GetCurrentModule`: throws when `modules_` is empty, otherwise a
reference to `*modules_.back()`, given as its position. -/
def ExecutedAddressManager.GetCurrentModule (self : ExecutedAddressManager) : Except Error Nat :=
  if self.modules_.isEmpty then .error .notCurrentModuleSet
  else .ok (self.modules_.length - 1)

/-- The member `emplace` of a map with unique keys: inserts unless the key is
present, and tells whether it inserted. -/
def mapEmplace {κ β : Type} [DecidableEq κ] (m : List (κ × β)) (key : κ) (value : β) :
    List (κ × β) × Bool :=
  match mapFind m key with
  | some _ => (m, false)
  | none => (m ++ [(key, value)], true)

/-- The statements of `RegisterAddress` between `GetCurrentModule` and the
`emplace`, on the module at position `module`: `module.files_[filename]`,
`file.lines[lineNumber]`, and `push_back` of a fresh instruction. -/
def ExecutedAddressManager.pushBackInstruction (self : ExecutedAddressManager) (module : Nat)
    (filename : String) (lineNumber : Nat) (instructionValue : Nat) : ExecutedAddressManager :=
  let self1 := self.withModule module
    (fun m => { m with files_ := unorderedMapIndex (File.mk []) m.files_ filename })
  let self2 := self1.withFile module filename
    (fun f => { f with lines := orderedMapIndex (Line.mk []) f.lines lineNumber })
  self2.withLine module filename lineNumber
    (fun l => { l with instructions_ := l.instructions_ ++ [Instruction.mk instructionValue false] })

/-- The pointer `&line.instructions_.back()` for the line at the given place. -/
def ExecutedAddressManager.backOf (self : ExecutedAddressManager) (module : Nat)
    (filename : String) (lineNumber : Nat) : InstructionPtr :=
  { module := module, file := filename, line := lineNumber,
    index := (self.instructionsAt module filename lineNumber).length - 1 }

/-- The method `RegisterAddress`: the current module, the insertion of the
instruction, the address of `back()`, and the `emplace` whose failure throws. -/
def ExecutedAddressManager.RegisterAddress (self : ExecutedAddressManager) (address : Nat)
    (filename : String) (lineNumber : Nat) (instructionValue : Nat) :
    Except Error Unit × ExecutedAddressManager :=
  match self.GetCurrentModule with
  | .error e => (.error e, self)
  | .ok module =>
    let self3 := self.pushBackInstruction module filename lineNumber instructionValue
    let instruction := self3.backOf module filename lineNumber
    match mapEmplace self3.addressLineMap_ address (some instruction) with
    | (map, true) => (.ok (), { self3 with addressLineMap_ := map })
    | (_, false) => (.error .addressAlreadyRegister, self3)

/-- The method `MarkAddressAsExecuted`. -/
def ExecutedAddressManager.MarkAddressAsExecuted (self : ExecutedAddressManager) (address : Nat) :
    Except Error Nat × ExecutedAddressManager :=
  match mapFind self.addressLineMap_ address with
  | none => (.error .addressShouldBeRegisterFirst, self)
  | some none => (.error .lineCannotBeNull, self)
  | some (some instruction) =>
    match self.deref instruction with
    | none => (.error .invalidPointer, self)
    | some target =>
      (.ok target.instruction_,
        self.store instruction (fun i => { i with hasBeenExecuted_ := true }))

/-! ## The report -/

/-- Modelled from the spec: the class `FileCoverage` (`FileCoverage.hpp` is not
among the sources), a file entry holding the line entries
`(lineNumber, executed)` in the order they were added. -/
structure FileCoverage where
  path : String
  lines : List (Nat × Bool)
deriving DecidableEq, Repr

/-- Modelled from the spec: the class `ModuleCoverage` (`ModuleCoverage.hpp` is
not among the sources), a module entry holding its file entries in the order
they were added. -/
structure ModuleCoverage where
  name : String
  files : List FileCoverage
deriving DecidableEq, Repr

/-- Modelled from the spec: the class `CoverageData` (its header is not among
the sources), a named report holding its module entries in the order they were
added. -/
structure CoverageData where
  name : String
  modules : List ModuleCoverage
deriving DecidableEq, Repr

/-- Modelled from the spec: `FileCoverage::AddLine` adds one line entry. -/
def FileCoverage.AddLine (self : FileCoverage) (lineNumber : Nat) (hasBeenExecuted : Bool) :
    FileCoverage :=
  { self with lines := self.lines ++ [(lineNumber, hasBeenExecuted)] }

/-- Modelled from the spec: `ModuleCoverage::AddFile` adds one file entry.  The
source fills the entry through the reference `AddFile` returns; here the entry
is added once filled. -/
def ModuleCoverage.AddFile (self : ModuleCoverage) (file : FileCoverage) : ModuleCoverage :=
  { self with files := self.files ++ [file] }

/-- Modelled from the spec: `CoverageData::AddModule` adds one module entry.
The source fills the entry through the reference `AddModule` returns; here the
entry is added once filled. -/
def CoverageData.AddModule (self : CoverageData) (module : ModuleCoverage) : CoverageData :=
  { self with modules := self.modules ++ [module] }

/-- Modelled from the spec: the rate of a module entry as computed by
`ComputeCoverageRate` (not among the sources), executed lines over registered
lines, given as the two counts. -/
def ModuleCoverage.ComputeCoverageRate (self : ModuleCoverage) : Nat × Nat :=
  (self.files.foldl (fun n file => n + (file.lines.filter (fun line => line.2)).length) 0,
   self.files.foldl (fun n file => n + file.lines.length) 0)

/-- The innermost loop of `CreateCoverageData`, over the lines of one file. -/
def CreateCoverageData.lineLoop (fileData : File) (fileCoverage : FileCoverage) : FileCoverage :=
  fileData.lines.foldl
    (fun fileCoverage pair => fileCoverage.AddLine pair.1 pair.2.HasLineBeenExecuted)
    fileCoverage

/-- The middle loop of `CreateCoverageData`, over the files of one module. -/
def CreateCoverageData.fileLoop (module : Module) (moduleCoverage : ModuleCoverage) :
    ModuleCoverage :=
  module.files_.foldl
    (fun moduleCoverage file =>
      moduleCoverage.AddFile (CreateCoverageData.lineLoop file.2 { path := file.1, lines := [] }))
    moduleCoverage

/-- The method `CreateCoverageData`.  The final `ComputeCoverageRate` derives
rates from the entries and adds or removes none; see
`ModuleCoverage.ComputeCoverageRate`. -/
def ExecutedAddressManager.CreateCoverageData (self : ExecutedAddressManager) (name : String) :
    CoverageData :=
  self.modules_.foldl
    (fun coverageData module =>
      coverageData.AddModule (CreateCoverageData.fileLoop module { name := module.name_, files := [] }))
    { name := name, modules := [] }

/-- The line entries the innermost loop of `CreateCoverageData` adds for a
file, in order. -/
def File.lineEntries (file : File) : List (Nat × Bool) :=
  file.lines.map (fun pair => (pair.1, pair.2.HasLineBeenExecuted))

/-- The file entries the middle loop of `CreateCoverageData` adds for a module,
in order. -/
def Module.fileEntries (module : Module) : List FileCoverage :=
  module.files_.map (fun file => { path := file.1, lines := file.2.lineEntries })

/-! ## Call sequences -/

/-- One call of a mutating method of the manager. -/
inductive Call where
  | setCurrentModule (moduleName : String)
  | registerAddress (address : Nat) (filename : String) (lineNumber : Nat) (instructionValue : Nat)
  | markAddressAsExecuted (address : Nat)
deriving DecidableEq, Repr

/-- The state a call leaves the manager in, whether it returns or throws. -/
def ExecutedAddressManager.after (self : ExecutedAddressManager) : Call → ExecutedAddressManager
  | .setCurrentModule moduleName => self.SetCurrentModule moduleName
  | .registerAddress address filename lineNumber instructionValue =>
    (self.RegisterAddress address filename lineNumber instructionValue).2
  | .markAddressAsExecuted address => (self.MarkAddressAsExecuted address).2

/-- Whether a call returns rather than throws. -/
def ExecutedAddressManager.succeeds (self : ExecutedAddressManager) : Call → Bool
  | .setCurrentModule _ => true
  | .registerAddress address filename lineNumber instructionValue =>
    match (self.RegisterAddress address filename lineNumber instructionValue).1 with
    | .ok _ => true
    | .error _ => false
  | .markAddressAsExecuted address =>
    match (self.MarkAddressAsExecuted address).1 with
    | .ok _ => true
    | .error _ => false

/-- The state after a sequence of calls made on `self`, an exception being
caught by the caller each time one is thrown. -/
def ExecutedAddressManager.afterAll (self : ExecutedAddressManager) (calls : List Call) :
    ExecutedAddressManager :=
  calls.foldl ExecutedAddressManager.after self

/-- The state after a sequence of calls on a freshly constructed manager. -/
def run (calls : List Call) : ExecutedAddressManager :=
  ExecutedAddressManager.new.afterAll calls

/-! ## What a call sequence recorded -/

/-- The names passed to `SetCurrentModule`, in call order. -/
def moduleNames : List Call → List String
  | [] => []
  | .setCurrentModule moduleName :: rest => moduleName :: moduleNames rest
  | .registerAddress _ _ _ _ :: rest => moduleNames rest
  | .markAddressAsExecuted _ :: rest => moduleNames rest

/-- The address was passed to a `RegisterAddress` call of the sequence, and that
call returned. -/
def RegisteredOk (calls : List Call) (address : Nat) : Prop :=
  ∃ (before : List Call) (filename : String) (lineNumber instructionValue : Nat)
    (later : List Call),
    calls = before ++ Call.registerAddress address filename lineNumber instructionValue :: later ∧
    ((run before).RegisterAddress address filename lineNumber instructionValue).1 = .ok ()

/-- The sequence contains a call `RegisterAddress(address, filename,
lineNumber, _)` made when exactly `k + 1` calls of `SetCurrentModule` had been
made, that is, while the module at position `k` was current. -/
def RegisteredOn (calls : List Call) (k : Nat) (filename : String) (lineNumber address : Nat) :
    Prop :=
  ∃ (before : List Call) (instructionValue : Nat) (later : List Call),
    calls = before ++ Call.registerAddress address filename lineNumber instructionValue :: later ∧
    (moduleNames before).length = k + 1

/-- The sequence contains a call `RegisterAddress(address, filename,
lineNumber, _)` made while the module at position `k` was current, and later a
call `MarkAddressAsExecuted(address)`. -/
def HitOn (calls : List Call) (k : Nat) (filename : String) (lineNumber address : Nat) : Prop :=
  ∃ (before : List Call) (instructionValue : Nat) (between later : List Call),
    calls = before ++ Call.registerAddress address filename lineNumber instructionValue ::
      (between ++ Call.markAddressAsExecuted address :: later) ∧
    (moduleNames before).length = k + 1

/-- Whether every call of the sequence, made in turn on `self`, returns. -/
def ExecutedAddressManager.allSucceed (self : ExecutedAddressManager) : List Call → Bool
  | [] => true
  | c :: rest => self.succeeds c && (self.after c).allSucceed rest

/-- Every call of the sequence, made on a freshly constructed manager, returns. -/
def AllSucceed (calls : List Call) : Prop :=
  ExecutedAddressManager.new.allSucceed calls = true

/-- The calls of the end-to-end scenario that come before the hit: one module,
one file, three addresses on two lines. -/
def scenarioCalls : List Call :=
  [Call.setCurrentModule "app.dll",
   Call.registerAddress 0x1000 "main.cpp" 10 0x90,
   Call.registerAddress 0x1004 "main.cpp" 20 0x90,
   Call.registerAddress 0x1008 "main.cpp" 20 0xCC]

/-- How the state reached by a sequence of calls that all return mirrors the
sequence: which files and lines exist, what each index entry is bound to, and
which flags are set. -/
structure Recorded (calls : List Call) (s : ExecutedAddressManager) : Prop where
  file_iff : ∀ (k : Nat) (f : String),
    (s.fileAt k f).isSome = true ↔ ∃ l a, RegisteredOn calls k f l a
  line_iff : ∀ (k : Nat) (f : String) (l : Nat),
    (s.lineAt k f l).isSome = true ↔ ∃ a, RegisteredOn calls k f l a
  bound_registered : ∀ (a : Nat) (q : InstructionPtr),
    mapFind s.addressLineMap_ a = some (some q) → RegisteredOn calls q.module q.file q.line a
  registered_bound : ∀ (k : Nat) (f : String) (l a : Nat), RegisteredOn calls k f l a →
    ∃ q, mapFind s.addressLineMap_ a = some (some q) ∧ q.module = k ∧ q.file = f ∧ q.line = l
  flag_iff : ∀ (a : Nat) (q : InstructionPtr) (i : Instruction),
    mapFind s.addressLineMap_ a = some (some q) → s.deref q = some i →
      (i.hasBeenExecuted_ = true ↔ HitOn calls q.module q.file q.line a)
  node_bound : ∀ (q : InstructionPtr) (i : Instruction), s.deref q = some i →
    ∃ a, mapFind s.addressLineMap_ a = some (some q)
  bound_injective : ∀ (a a' : Nat) (q : InstructionPtr),
    mapFind s.addressLineMap_ a = some (some q) → mapFind s.addressLineMap_ a' = some (some q) →
      a = a'

/-- Every entry of the index holds a pointer that is not null and refers to a
node. -/
def ExecutedAddressManager.IndexValid (self : ExecutedAddressManager) : Prop :=
  ∀ (address : Nat) (p : Option InstructionPtr), mapFind self.addressLineMap_ address = some p →
    ∃ q, p = some q ∧ (self.deref q).isSome = true

/-- The state `later` keeps what `self` holds: the module names at their
positions, the entries of the index, and every node at its location with its byte
and with its flag if the flag was set. -/
def ExecutedAddressManager.GrowsTo (self later : ExecutedAddressManager) : Prop :=
  (∀ (k : Nat) (name : String), (self.modules_.map Module.name_)[k]? = some name →
      (later.modules_.map Module.name_)[k]? = some name) ∧
    (∀ (address : Nat) (p : Option InstructionPtr),
      mapFind self.addressLineMap_ address = some p →
        mapFind later.addressLineMap_ address = some p) ∧
    (∀ (p : InstructionPtr) (i : Instruction), self.deref p = some i →
      ∃ i', later.deref p = some i' ∧ i'.instruction_ = i.instruction_ ∧
        (i.hasBeenExecuted_ = true → i'.hasBeenExecuted_ = true))

/-! ## Well-formed states -/

/-- The containers of a module are what their types promise: the keys of
`files_` are distinct and the keys of each `lines` ascend strictly. -/
def Module.WellFormed (module : Module) : Prop :=
  (module.files_.map Prod.fst).Nodup ∧
    ∀ file ∈ module.files_, (file.2.lines.map Prod.fst).Pairwise (· < ·)

/-- Every module of the manager is well formed. -/
def ExecutedAddressManager.WellFormed (self : ExecutedAddressManager) : Prop :=
  ∀ module ∈ self.modules_, module.WellFormed

/-- A session in which line 5 of "common.h" is registered under two modules, at
`0x1000` under "a.dll" and at `0x2000` under "b.dll". -/
def sharedHeaderCalls : List Call :=
  [Call.setCurrentModule "a.dll",
   Call.registerAddress 0x1000 "common.h" 5 0x90,
   Call.setCurrentModule "b.dll",
   Call.registerAddress 0x2000 "common.h" 5 0x55]

/-- A session with two addresses on line 20 of "main.cpp" in "app.dll". -/
def sameLineCalls : List Call :=
  [Call.setCurrentModule "app.dll"] ++
    Call.registerAddress 0x1004 "main.cpp" 20 0x90 ::
      [Call.registerAddress 0x1008 "main.cpp" 20 0xCC]

/-! ## Reading a report -/

/-- The file entry of a module entry for a path: the first one with that path.
A module entry of a report made by `CreateCoverageData` has at most one. -/
def ModuleCoverage.file (self : ModuleCoverage) (path : String) : Option FileCoverage :=
  self.files.find? (fun file => decide (file.path = path))

/-- The file entry of the report for a path in the module entry at position
`k`. -/
def CoverageData.file (self : CoverageData) (k : Nat) (path : String) : Option FileCoverage :=
  (self.modules[k]?).bind (fun module => module.file path)

/-- The executed value the report gives for a line of a file in the module
entry at position `k`, if it has such a line entry. -/
def CoverageData.executed (self : CoverageData) (k : Nat) (path : String) (lineNumber : Nat) :
    Option Bool :=
  (self.file k path).bind (fun file => mapFind file.lines lineNumber)

/-- The report without its executed values: the module names in order, and
under each the file paths, and under each the line numbers. -/
def CoverageData.outline (self : CoverageData) : List (String × List (String × List Nat)) :=
  self.modules.map (fun module =>
    (module.name, module.files.map (fun file => (file.path, file.lines.map Prod.fst))))

/-- No two entries of the index with distinct addresses hold the same
pointer. -/
def ExecutedAddressManager.IndexInjective (self : ExecutedAddressManager) : Prop :=
  ∀ (a a' : Nat) (q : InstructionPtr), mapFind self.addressLineMap_ a = some (some q) →
    mapFind self.addressLineMap_ a' = some (some q) → a = a'

/-! ## Program options -/

/-- The loop of `GetExportTypesAsString`, started with `possibleExportType`. -/
def GetExportTypesAsString.loop (possibleExportType : String) : List String → String
  | [] => possibleExportType
  | exportType :: rest =>
    GetExportTypesAsString.loop
      ((if !possibleExportType.isEmpty then possibleExportType ++ ", "
        else possibleExportType) ++ exportType)
      rest

/-- The function `GetExportTypesAsString` of `ProgramOptions.cpp`. -/
def GetExportTypesAsString (optionsExportTypes : List String) : String :=
  GetExportTypesAsString.loop "" optionsExportTypes

/-- The function `GetExportTypeText` of `ProgramOptions.cpp`. -/
def GetExportTypeText (exportTypes : List String) : String :=
  "The export type. Possible values are: " ++ GetExportTypesAsString exportTypes ++
    ". Can have multiple occurrences."

/-- The names in list order joined by a separator, as the words say: nothing
for no name, the name itself for one name, and otherwise the first name, the
separator, and the rest joined. -/
def joinWith (separator : String) : List String → String
  | [] => ""
  | [name] => name
  | name :: next :: rest => name ++ separator ++ joinWith separator (next :: rest)

/-! ## Container lemmas -/

section Containers

variable {κ β : Type} [DecidableEq κ]

theorem mapFind_mapModify (g : β → β) (xs : List (κ × β)) (key key' : κ) :
    mapFind (mapModify g xs key) key' =
      if key = key' then (mapFind xs key').map g else mapFind xs key' := by
  induction xs with
  | nil => simp [mapModify, mapFind]
  | cons x rest ih =>
    obtain ⟨k, v⟩ := x
    by_cases hk : k = key
    · subst hk
      by_cases hk' : k = key'
      · simp [mapModify, mapFind, hk']
      · simp [mapModify, mapFind, hk']
    · by_cases hk' : k = key'
      · subst hk'
        simp [mapModify, mapFind, hk, Ne.symm hk]
      · simp only [mapModify, mapFind, hk, hk', if_false, ih]

theorem map_fst_mapModify (g : β → β) (xs : List (κ × β)) (key : κ) :
    (mapModify g xs key).map Prod.fst = xs.map Prod.fst := by
  induction xs with
  | nil => rfl
  | cons x rest ih =>
    obtain ⟨k, v⟩ := x
    by_cases hk : k = key
    · simp [mapModify, hk]
    · simp [mapModify, hk, ih]

theorem mapFind_eq_none_iff (xs : List (κ × β)) (key : κ) :
    mapFind xs key = none ↔ key ∉ xs.map Prod.fst := by
  induction xs with
  | nil => simp [mapFind]
  | cons x rest ih =>
    obtain ⟨k, v⟩ := x
    by_cases hk : k = key
    · simp [mapFind, hk]
    · simp [mapFind, hk, ih, Ne.symm hk]

theorem mapFind_isSome_iff (xs : List (κ × β)) (key : κ) :
    (mapFind xs key).isSome = true ↔ key ∈ xs.map Prod.fst := by
  rw [← not_iff_not, ← mapFind_eq_none_iff]
  cases mapFind xs key <;> simp

theorem mem_of_mapFind {xs : List (κ × β)} {key : κ} {v : β} (h : mapFind xs key = some v) :
    (key, v) ∈ xs := by
  induction xs with
  | nil => simp [mapFind] at h
  | cons x rest ih =>
    obtain ⟨k, w⟩ := x
    by_cases hk : k = key
    · simp [mapFind, hk] at h
      simp [hk, h]
    · simp only [mapFind, hk, if_false] at h
      exact List.mem_cons_of_mem _ (ih h)

theorem mapFind_of_mem {xs : List (κ × β)} {key : κ} {v : β}
    (hnd : (xs.map Prod.fst).Nodup) (h : (key, v) ∈ xs) : mapFind xs key = some v := by
  induction xs with
  | nil => simp at h
  | cons x rest ih =>
    obtain ⟨k, w⟩ := x
    simp only [List.map_cons, List.nodup_cons] at hnd
    rcases List.mem_cons.1 h with heq | hmem
    · cases heq
      simp [mapFind]
    · have hne : k ≠ key := by
        intro hk
        subst hk
        exact hnd.1 (List.mem_map_of_mem Prod.fst hmem)
      simp only [mapFind, hne, if_false]
      exact ih hnd.2 hmem

theorem mapFind_unorderedMapIndex (d : β) (xs : List (κ × β)) (key key' : κ) :
    mapFind (unorderedMapIndex d xs key) key' =
      if key = key' then some ((mapFind xs key').getD d) else mapFind xs key' := by
  induction xs with
  | nil =>
    by_cases hk : key = key' <;> simp [unorderedMapIndex, mapFind, hk]
  | cons x rest ih =>
    obtain ⟨k, v⟩ := x
    by_cases hk : k = key
    · subst hk
      by_cases hk' : k = key' <;> simp [unorderedMapIndex, mapFind, hk']
    · by_cases hk' : k = key'
      · subst hk'
        simp [unorderedMapIndex, mapFind, hk, Ne.symm hk]
      · simp only [unorderedMapIndex, mapFind, hk, hk', if_false, ih]

theorem map_fst_unorderedMapIndex (d : β) (xs : List (κ × β)) (key : κ) :
    (unorderedMapIndex d xs key).map Prod.fst =
      if key ∈ xs.map Prod.fst then xs.map Prod.fst else xs.map Prod.fst ++ [key] := by
  induction xs with
  | nil => simp [unorderedMapIndex]
  | cons x rest ih =>
    obtain ⟨k, v⟩ := x
    by_cases hk : k = key
    · simp [unorderedMapIndex, hk]
    · have hne : ¬ key = k := Ne.symm hk
      by_cases hm : key ∈ rest.map Prod.fst
      · simp only [unorderedMapIndex, hk, if_false, List.map_cons, ih, if_pos hm,
          List.mem_cons, hne, false_or]
      · simp only [unorderedMapIndex, hk, if_false, List.map_cons, ih, if_neg hm,
          List.mem_cons, hne, false_or, List.cons_append]

theorem nodup_unorderedMapIndex (d : β) (xs : List (κ × β)) (key : κ)
    (h : (xs.map Prod.fst).Nodup) : ((unorderedMapIndex d xs key).map Prod.fst).Nodup := by
  rw [map_fst_unorderedMapIndex]
  split
  · exact h
  · rename_i hm
    exact List.Nodup.append h (List.nodup_singleton _) (by simpa using hm)

theorem mapFind_orderedMapIndex {β : Type} (d : β) (xs : List (Nat × β)) (key key' : Nat)
    (h : (xs.map Prod.fst).Pairwise (· < ·)) :
    mapFind (orderedMapIndex d xs key) key' =
      if key = key' then some ((mapFind xs key').getD d) else mapFind xs key' := by
  induction xs with
  | nil =>
    by_cases hk : key = key' <;> simp [orderedMapIndex, mapFind, hk]
  | cons x rest ih =>
    obtain ⟨k, v⟩ := x
    simp only [List.map_cons, List.pairwise_cons] at h
    by_cases hlt : key < k
    · by_cases hk' : key = key'
      · subst hk'
        have hne : ¬ k = key := by omega
        have hnone : mapFind rest key = none := by
          rw [mapFind_eq_none_iff]
          intro hm
          have := h.1 key hm
          omega
        simp [orderedMapIndex, mapFind, hlt, hne, hnone]
      · simp [orderedMapIndex, mapFind, hlt, hk']
    · by_cases hk : k = key
      · subst hk
        by_cases hk' : k = key' <;> simp [orderedMapIndex, mapFind, hk']
      · by_cases hk' : k = key'
        · subst hk'
          simp [orderedMapIndex, mapFind, hlt, hk, Ne.symm hk]
        · simp only [orderedMapIndex, mapFind, hlt, hk, hk', if_false, ih h.2]

theorem mem_map_fst_orderedMapIndex {β : Type} (d : β) (xs : List (Nat × β)) (key key' : Nat) :
    key' ∈ (orderedMapIndex d xs key).map Prod.fst ↔ key' = key ∨ key' ∈ xs.map Prod.fst := by
  induction xs with
  | nil => simp [orderedMapIndex]
  | cons x rest ih =>
    obtain ⟨k, v⟩ := x
    by_cases hlt : key < k
    · simp [orderedMapIndex, hlt]
    · by_cases hk : k = key
      · subst hk
        simp [orderedMapIndex]
      · simp only [orderedMapIndex, hlt, hk, if_false, List.map_cons, List.mem_cons, ih]
        tauto

theorem sorted_orderedMapIndex {β : Type} (d : β) (xs : List (Nat × β)) (key : Nat)
    (h : (xs.map Prod.fst).Pairwise (· < ·)) :
    ((orderedMapIndex d xs key).map Prod.fst).Pairwise (· < ·) := by
  induction xs with
  | nil => simp [orderedMapIndex]
  | cons x rest ih =>
    obtain ⟨k, v⟩ := x
    simp only [List.map_cons, List.pairwise_cons] at h
    by_cases hlt : key < k
    · simp only [orderedMapIndex, hlt, if_true, List.map_cons, List.pairwise_cons]
      refine ⟨?_, h⟩
      intro b hb
      rcases List.mem_cons.1 hb with hb | hb
      · omega
      · have := h.1 b hb
        omega
    · by_cases hk : k = key
      · subst hk
        simp only [orderedMapIndex, lt_self_iff_false, if_false, if_true, List.map_cons,
          List.pairwise_cons]
        exact h
      · simp only [orderedMapIndex, hlt, hk, if_false, List.map_cons, List.pairwise_cons]
        refine ⟨?_, ih h.2⟩
        intro b hb
        rcases (mem_map_fst_orderedMapIndex d rest key b).1 hb with hb | hb
        · omega
        · exact h.1 b hb

theorem nodup_of_sorted {xs : List Nat} (h : xs.Pairwise (· < ·)) : xs.Nodup :=
  h.imp (fun hab => Nat.ne_of_lt hab)

theorem length_seqModify {α : Type} (g : α → α) (xs : List α) (n : Nat) :
    (seqModify g xs n).length = xs.length := by
  induction xs generalizing n with
  | nil => rfl
  | cons x rest ih =>
    cases n with
    | zero => rfl
    | succ n => simp [seqModify, ih]

theorem getElem?_seqModify {α : Type} (g : α → α) (xs : List α) (n m : Nat) :
    (seqModify g xs n)[m]? = if n = m then xs[m]?.map g else xs[m]? := by
  induction xs generalizing n m with
  | nil => cases n <;> simp [seqModify]
  | cons x rest ih =>
    cases n with
    | zero =>
      cases m with
      | zero => simp [seqModify]
      | succ m => simp [seqModify]
    | succ n =>
      cases m with
      | zero => simp [seqModify]
      | succ m => simp [seqModify, ih]

theorem seqModify_seqModify {α : Type} (g h : α → α) (xs : List α) (n : Nat) :
    seqModify h (seqModify g xs n) n = seqModify (fun x => h (g x)) xs n := by
  induction xs generalizing n with
  | nil => rfl
  | cons x rest ih =>
    cases n with
    | zero => rfl
    | succ n => simp [seqModify, ih]

theorem seqModify_congr {α : Type} (g h : α → α) (xs : List α) (n : Nat)
    (hgh : ∀ x, xs[n]? = some x → g x = h x) : seqModify g xs n = seqModify h xs n := by
  induction xs generalizing n with
  | nil => rfl
  | cons x rest ih =>
    cases n with
    | zero => simp [seqModify, hgh x (by simp)]
    | succ n =>
      simp only [seqModify, List.cons.injEq, true_and]
      exact ih n (fun y hy => hgh y (by simpa using hy))

theorem seqModify_id {α : Type} (g : α → α) (xs : List α) (n : Nat)
    (hg : ∀ x, xs[n]? = some x → g x = x) : seqModify g xs n = xs := by
  induction xs generalizing n with
  | nil => rfl
  | cons x rest ih =>
    cases n with
    | zero => simp [seqModify, hg x (by simp)]
    | succ n =>
      simp only [seqModify, List.cons.injEq, true_and]
      exact ih n (fun y hy => hg y (by simpa using hy))

theorem map_seqModify {α γ : Type} (g : α → α) (p : α → γ) (xs : List α) (n : Nat)
    (hg : ∀ x, p (g x) = p x) : (seqModify g xs n).map p = xs.map p := by
  induction xs generalizing n with
  | nil => rfl
  | cons x rest ih =>
    cases n with
    | zero => simp [seqModify, hg]
    | succ n => simp [seqModify, ih]

theorem mapModify_mapModify {κ β : Type} [DecidableEq κ] (g h : β → β) (xs : List (κ × β))
    (key : κ) : mapModify h (mapModify g xs key) key = mapModify (fun x => h (g x)) xs key := by
  induction xs with
  | nil => rfl
  | cons x rest ih =>
    obtain ⟨k, v⟩ := x
    by_cases hk : k = key
    · simp [mapModify, hk]
    · simp [mapModify, hk, ih]

theorem mapModify_id {κ β : Type} [DecidableEq κ] (g : β → β) (xs : List (κ × β)) (key : κ)
    (hg : ∀ v, mapFind xs key = some v → g v = v) : mapModify g xs key = xs := by
  induction xs with
  | nil => rfl
  | cons x rest ih =>
    obtain ⟨k, v⟩ := x
    by_cases hk : k = key
    · simp [mapModify, hk, hg v (by simp [mapFind, hk])]
    · simp only [mapModify, hk, if_false, List.cons.injEq, true_and]
      exact ih (fun w hw => hg w (by simpa [mapFind, hk] using hw))

theorem forall_mem_mapModify {κ β : Type} [DecidableEq κ] (P : β → Prop) (g : β → β)
    (xs : List (κ × β)) (key : κ) (hxs : ∀ e ∈ xs, P e.2) (hg : ∀ v, P v → P (g v)) :
    ∀ e ∈ mapModify g xs key, P e.2 := by
  induction xs with
  | nil => simp [mapModify]
  | cons x rest ih =>
    obtain ⟨k, v⟩ := x
    have hv : P v := hxs (k, v) (List.mem_cons_self _ _)
    have hrest : ∀ e ∈ rest, P e.2 := fun e he => hxs e (List.mem_cons_of_mem _ he)
    by_cases hk : k = key
    · simp only [mapModify, hk, if_true, List.mem_cons]
      rintro e (rfl | he)
      · exact hg v hv
      · exact hrest e he
    · simp only [mapModify, hk, if_false, List.mem_cons]
      rintro e (rfl | he)
      · exact hv
      · exact ih hrest e he

theorem forall_mem_unorderedMapIndex {κ β : Type} [DecidableEq κ] (P : β → Prop) (d : β)
    (xs : List (κ × β)) (key : κ) (hxs : ∀ e ∈ xs, P e.2) (hd : P d) :
    ∀ e ∈ unorderedMapIndex d xs key, P e.2 := by
  induction xs with
  | nil =>
    intro e he
    simp only [unorderedMapIndex, List.mem_singleton] at he
    subst he
    exact hd
  | cons x rest ih =>
    obtain ⟨k, v⟩ := x
    have hrest : ∀ e ∈ rest, P e.2 := fun e he => hxs e (List.mem_cons_of_mem _ he)
    by_cases hk : k = key
    · simpa only [unorderedMapIndex, hk, if_true] using hxs
    · simp only [unorderedMapIndex, hk, if_false, List.mem_cons]
      rintro e (rfl | he)
      · exact hxs _ (List.mem_cons_self _ _)
      · exact ih hrest e he

theorem forall_mem_seqModify {α : Type} (P : α → Prop) (g : α → α) (xs : List α) (n : Nat)
    (hxs : ∀ x ∈ xs, P x) (hg : ∀ x, P x → P (g x)) : ∀ x ∈ seqModify g xs n, P x := by
  induction xs generalizing n with
  | nil => simp [seqModify]
  | cons x rest ih =>
    have hx : P x := hxs x (List.mem_cons_self _ _)
    have hrest : ∀ y ∈ rest, P y := fun y hy => hxs y (List.mem_cons_of_mem _ hy)
    cases n with
    | zero =>
      simp only [seqModify, List.mem_cons]
      rintro y (rfl | hy)
      · exact hg x hx
      · exact hrest y hy
    | succ n =>
      simp only [seqModify, List.mem_cons]
      rintro y (rfl | hy)
      · exact hx
      · exact ih n hrest y hy

end Containers

/-! ## Reading after writing -/

namespace ExecutedAddressManager

variable (s : ExecutedAddressManager)

@[simp]
theorem addressLineMap_withModule (m : Nat) (g : Module → Module) :
    (s.withModule m g).addressLineMap_ = s.addressLineMap_ := rfl

@[simp]
theorem addressLineMap_withFile (m : Nat) (f : String) (g : File → File) :
    (s.withFile m f g).addressLineMap_ = s.addressLineMap_ := rfl

@[simp]
theorem addressLineMap_withLine (m : Nat) (f : String) (l : Nat) (g : Line → Line) :
    (s.withLine m f l g).addressLineMap_ = s.addressLineMap_ := rfl

@[simp]
theorem addressLineMap_store (p : InstructionPtr) (g : Instruction → Instruction) :
    (s.store p g).addressLineMap_ = s.addressLineMap_ := rfl

@[simp]
theorem addressLineMap_pushBackInstruction (m : Nat) (f : String) (l b : Nat) :
    (s.pushBackInstruction m f l b).addressLineMap_ = s.addressLineMap_ := rfl

theorem moduleAt_withModule (m k : Nat) (g : Module → Module) :
    (s.withModule m g).moduleAt k = if m = k then (s.moduleAt k).map g else s.moduleAt k := by
  simp [moduleAt, withModule, getElem?_seqModify]

theorem fileAt_withModule (m k : Nat) (g : Module → Module) (f : String) :
    (s.withModule m g).fileAt k f =
      if m = k then (s.moduleAt k).bind (fun module => mapFind (g module).files_ f)
      else s.fileAt k f := by
  unfold fileAt
  rw [moduleAt_withModule]
  split
  · cases s.moduleAt k <;> rfl
  · rfl

theorem fileAt_withFile (m k : Nat) (fn f : String) (g : File → File) :
    (s.withFile m fn g).fileAt k f =
      if m = k ∧ fn = f then (s.fileAt k f).map g else s.fileAt k f := by
  unfold withFile
  rw [fileAt_withModule]
  by_cases hm : m = k
  · simp only [hm, true_and, if_true, mapFind_mapModify, fileAt]
    cases s.moduleAt k with
    | none => simp
    | some module => by_cases hf : fn = f <;> simp [hf]
  · simp [hm]

theorem lineAt_withFile (m k : Nat) (fn f : String) (g : File → File) (l : Nat) :
    (s.withFile m fn g).lineAt k f l =
      if m = k ∧ fn = f then (s.fileAt k f).bind (fun file => mapFind (g file).lines l)
      else s.lineAt k f l := by
  unfold lineAt
  rw [fileAt_withFile]
  split
  · cases s.fileAt k f <;> rfl
  · rfl

theorem lineAt_withLine (m k : Nat) (fn f : String) (ln l : Nat) (g : Line → Line) :
    (s.withLine m fn ln g).lineAt k f l =
      if m = k ∧ fn = f ∧ ln = l then (s.lineAt k f l).map g else s.lineAt k f l := by
  unfold withLine
  rw [lineAt_withFile]
  by_cases hm : m = k ∧ fn = f
  · simp only [hm, and_self, true_and, if_true, mapFind_mapModify, lineAt]
    cases s.fileAt k f with
    | none => simp
    | some file => by_cases hl : ln = l <;> simp [hl]
  · have hm' : ¬ (m = k ∧ fn = f ∧ ln = l) := fun h => hm ⟨h.1, h.2.1⟩
    simp [hm, hm']

theorem fileAt_withLine (m k : Nat) (fn f : String) (ln : Nat) (g : Line → Line) :
    ((s.withLine m fn ln g).fileAt k f).isSome = (s.fileAt k f).isSome := by
  unfold withLine
  rw [fileAt_withFile]
  split <;> simp

theorem deref_store (q p : InstructionPtr) (g : Instruction → Instruction) :
    (s.store q g).deref p = if q = p then (s.deref p).map g else s.deref p := by
  unfold deref store
  rw [lineAt_withLine]
  by_cases hq : q = p
  · subst hq
    simp only [and_self, if_true]
    cases s.lineAt q.module q.file q.line with
    | none => rfl
    | some line => simp [getElem?_seqModify]
  · simp only [hq, if_false]
    by_cases hl : q.module = p.module ∧ q.file = p.file ∧ q.line = p.line
    · have hi : ¬ q.index = p.index := by
        intro hi
        apply hq
        cases q
        cases p
        simp_all
      simp only [hl, and_self, if_true]
      cases s.lineAt p.module p.file p.line with
      | none => rfl
      | some line => simp [getElem?_seqModify, hi]
    · simp [hl]

theorem lineAt_store (q : InstructionPtr) (g : Instruction → Instruction) (k : Nat) (f : String)
    (l : Nat) :
    (s.store q g).lineAt k f l =
      if q.module = k ∧ q.file = f ∧ q.line = l then
        (s.lineAt k f l).map
          (fun line => { line with instructions_ := seqModify g line.instructions_ q.index })
      else s.lineAt k f l := by
  unfold store
  rw [lineAt_withLine]

theorem fileAt_store (q : InstructionPtr) (g : Instruction → Instruction) (k : Nat)
    (f : String) : ((s.store q g).fileAt k f).isSome = (s.fileAt k f).isSome :=
  fileAt_withLine s _ _ _ _ _ _

theorem names_withModule (m : Nat) (g : Module → Module)
    (hg : ∀ module : Module, (g module).name_ = module.name_) :
    (s.withModule m g).modules_.map Module.name_ = s.modules_.map Module.name_ :=
  map_seqModify g Module.name_ s.modules_ m hg

theorem names_store (q : InstructionPtr) (g : Instruction → Instruction) :
    (s.store q g).modules_.map Module.name_ = s.modules_.map Module.name_ :=
  names_withModule s _ _ (fun _ => rfl)

theorem names_pushBackInstruction (m : Nat) (f : String) (l b : Nat) :
    (s.pushBackInstruction m f l b).modules_.map Module.name_ = s.modules_.map Module.name_ := by
  simp only [pushBackInstruction, withLine, withFile]
  refine (names_withModule _ _ _ ?_).trans
    ((names_withModule _ _ _ ?_).trans (names_withModule _ _ _ ?_)) <;> intro _ <;> rfl

theorem length_of_names {s t : ExecutedAddressManager}
    (h : t.modules_.map Module.name_ = s.modules_.map Module.name_) :
    t.modules_.length = s.modules_.length := by
  simpa using congrArg List.length h

theorem sorted_of_fileAt {k : Nat} {f : String} {file : File} (hwf : s.WellFormed)
    (h : s.fileAt k f = some file) : (file.lines.map Prod.fst).Pairwise (· < ·) := by
  unfold fileAt moduleAt at h
  cases hm : s.modules_[k]? with
  | none => simp [hm] at h
  | some module =>
    simp only [hm, Option.some_bind] at h
    exact (hwf module (List.getElem?_mem hm)).2 (f, file) (mem_of_mapFind h)

theorem moduleAt_isSome (k : Nat) : (s.moduleAt k).isSome = true ↔ k < s.modules_.length := by
  unfold moduleAt
  cases h : s.modules_[k]? with
  | none => simpa using List.getElem?_eq_none_iff.1 h
  | some module =>
    have := (List.getElem?_eq_some_iff.1 h).1
    simpa using this

theorem fileAt_pushBackInstruction (m k : Nat) (fn f : String) (l b : Nat) :
    ((s.pushBackInstruction m fn l b).fileAt k f).isSome =
      ((decide (m = k ∧ fn = f) && (s.moduleAt k).isSome) || (s.fileAt k f).isSome) := by
  unfold pushBackInstruction
  rw [fileAt_withLine, fileAt_withFile, fileAt_withModule]
  by_cases hm : m = k
  · subst hm
    unfold fileAt
    cases s.moduleAt m with
    | none => simp
    | some module =>
      by_cases hf : fn = f
      · simp [hf, mapFind_unorderedMapIndex]
      · simp [hf, mapFind_unorderedMapIndex]
  · simp [hm]

theorem lineAt_withModule_unorderedMapIndex (m k : Nat) (fn f : String) (l : Nat) :
    (s.withModule m
      (fun module =>
        { module with files_ := unorderedMapIndex (File.mk []) module.files_ fn })).lineAt k f l =
      s.lineAt k f l := by
  unfold lineAt
  rw [fileAt_withModule]
  by_cases hk : m = k
  · subst hk
    unfold fileAt
    cases s.moduleAt m with
    | none => simp
    | some module =>
      simp only [if_true, Option.some_bind, mapFind_unorderedMapIndex]
      by_cases hf : fn = f
      · subst hf
        cases mapFind module.files_ fn <;> simp [mapFind]
      · simp [hf]
  · simp [hk]

theorem lineAt_pushBackInstruction (m k : Nat) (fn f : String) (ln l b : Nat)
    (hwf : s.WellFormed) (hm : m < s.modules_.length) :
    (s.pushBackInstruction m fn ln b).lineAt k f l =
      if m = k ∧ fn = f ∧ ln = l then
        some { instructions_ := s.instructionsAt k f l ++ [Instruction.mk b false] }
      else s.lineAt k f l := by
  unfold pushBackInstruction
  rw [lineAt_withLine, lineAt_withFile, fileAt_withModule]
  by_cases hk : m = k
  · subst hk
    obtain ⟨module, hmodule⟩ := Option.isSome_iff_exists.1 ((moduleAt_isSome s m).2 hm)
    by_cases hf : fn = f
    · subst hf
      have hsorted : ∀ file : File, mapFind module.files_ fn = some file →
          (file.lines.map Prod.fst).Pairwise (· < ·) := by
        intro file hfile
        refine sorted_of_fileAt s hwf (k := m) (f := fn) ?_
        simp [fileAt, hmodule, hfile]
      simp only [true_and, if_true, hmodule, Option.some_bind, mapFind_unorderedMapIndex,
        instructionsAt, lineAt, fileAt]
      cases hfile : mapFind module.files_ fn with
      | none =>
        by_cases hl : ln = l <;> simp [orderedMapIndex, mapFind, hl]
      | some file =>
        simp only [Option.getD_some, Option.some_bind,
          mapFind_orderedMapIndex _ _ _ _ (hsorted file hfile)]
        by_cases hl : ln = l
        · simp only [hl, if_true, Option.map_some']
          cases mapFind file.lines l <;> simp
        · simp [hl]
    · simp only [hf, false_and, and_false, if_false, lineAt_withModule_unorderedMapIndex]
  · simp only [hk, false_and, if_false, lineAt_withModule_unorderedMapIndex]

theorem instructionsAt_pushBackInstruction (m k : Nat) (fn f : String) (ln l b : Nat)
    (hwf : s.WellFormed) (hm : m < s.modules_.length) :
    (s.pushBackInstruction m fn ln b).instructionsAt k f l =
      if m = k ∧ fn = f ∧ ln = l then s.instructionsAt k f l ++ [Instruction.mk b false]
      else s.instructionsAt k f l := by
  unfold instructionsAt
  rw [lineAt_pushBackInstruction s m k fn f ln l b hwf hm]
  by_cases h : m = k ∧ fn = f ∧ ln = l
  · simp only [h, and_self, if_true, instructionsAt]
  · simp only [h, if_false]

theorem deref_eq (p : InstructionPtr) :
    s.deref p = (s.instructionsAt p.module p.file p.line)[p.index]? := by
  unfold deref instructionsAt
  cases s.lineAt p.module p.file p.line <;> simp

theorem deref_pushBackInstruction (m : Nat) (fn : String) (ln b : Nat) (p : InstructionPtr)
    (hwf : s.WellFormed) (hm : m < s.modules_.length) :
    (s.pushBackInstruction m fn ln b).deref p =
      if m = p.module ∧ fn = p.file ∧ ln = p.line then
        (s.instructionsAt p.module p.file p.line ++ [Instruction.mk b false])[p.index]?
      else s.deref p := by
  rw [deref_eq, instructionsAt_pushBackInstruction s m _ fn _ ln _ b hwf hm, deref_eq]
  split <;> rfl

theorem deref_pushBackInstruction_of_some (m : Nat) (fn : String) (ln b : Nat)
    (p : InstructionPtr) (i : Instruction) (hwf : s.WellFormed) (hm : m < s.modules_.length)
    (h : s.deref p = some i) : (s.pushBackInstruction m fn ln b).deref p = some i := by
  rw [deref_pushBackInstruction s m fn ln b p hwf hm]
  split
  · rw [deref_eq] at h
    rw [List.getElem?_append_left (List.getElem?_eq_some_iff.1 h).1]
    exact h
  · exact h

theorem backOf_pushBackInstruction (m : Nat) (fn : String) (ln b : Nat)
    (hwf : s.WellFormed) (hm : m < s.modules_.length) :
    (s.pushBackInstruction m fn ln b).backOf m fn ln =
      { module := m, file := fn, line := ln, index := (s.instructionsAt m fn ln).length } := by
  unfold backOf
  rw [instructionsAt_pushBackInstruction s m m fn fn ln ln b hwf hm]
  simp

theorem deref_backOf_pushBackInstruction (m : Nat) (fn : String) (ln b : Nat)
    (hwf : s.WellFormed) (hm : m < s.modules_.length) :
    (s.pushBackInstruction m fn ln b).deref ((s.pushBackInstruction m fn ln b).backOf m fn ln) =
      some (Instruction.mk b false) := by
  rw [backOf_pushBackInstruction s m fn ln b hwf hm,
    deref_pushBackInstruction s m fn ln b _ hwf hm]
  simp

theorem deref_backOf_before (m : Nat) (fn : String) (ln b : Nat)
    (hwf : s.WellFormed) (hm : m < s.modules_.length) :
    s.deref ((s.pushBackInstruction m fn ln b).backOf m fn ln) = none := by
  rw [backOf_pushBackInstruction s m fn ln b hwf hm, deref_eq]
  simp

/-! ## Well-formedness is preserved -/

theorem wellFormed_new : ExecutedAddressManager.new.WellFormed := by
  intro module hm
  simp [ExecutedAddressManager.new] at hm

theorem wellFormed_withModule (m : Nat) (g : Module → Module) (h : s.WellFormed)
    (hg : ∀ module : Module, module.WellFormed → (g module).WellFormed) :
    (s.withModule m g).WellFormed :=
  forall_mem_seqModify Module.WellFormed g s.modules_ m h hg

theorem wellFormed_withLine (m : Nat) (f : String) (l : Nat) (g : Line → Line)
    (h : s.WellFormed) : (s.withLine m f l g).WellFormed := by
  refine wellFormed_withModule s m _ h ?_
  rintro module ⟨hnd, hsorted⟩
  refine ⟨by simpa [map_fst_mapModify] using hnd, ?_⟩
  refine forall_mem_mapModify (fun file : File => (file.lines.map Prod.fst).Pairwise (· < ·))
    _ module.files_ f hsorted ?_
  intro file hfile
  simpa [map_fst_mapModify] using hfile

theorem wellFormed_store (p : InstructionPtr) (g : Instruction → Instruction)
    (h : s.WellFormed) : (s.store p g).WellFormed :=
  wellFormed_withLine s _ _ _ _ h

theorem wellFormed_pushBackInstruction (m : Nat) (f : String) (l b : Nat) (h : s.WellFormed) :
    (s.pushBackInstruction m f l b).WellFormed := by
  unfold pushBackInstruction
  refine wellFormed_withLine _ _ _ _ _ ?_
  refine wellFormed_withModule _ m _ (wellFormed_withModule s m _ h ?_) ?_
  · rintro module ⟨hnd, hsorted⟩
    refine ⟨nodup_unorderedMapIndex _ _ _ hnd, ?_⟩
    exact forall_mem_unorderedMapIndex
      (fun file : File => (file.lines.map Prod.fst).Pairwise (· < ·)) _ _ f hsorted (by simp)
  · rintro module ⟨hnd, hsorted⟩
    refine ⟨by simpa [map_fst_mapModify] using hnd, ?_⟩
    refine forall_mem_mapModify (fun file : File => (file.lines.map Prod.fst).Pairwise (· < ·))
      _ module.files_ f hsorted ?_
    intro file hfile
    exact sorted_orderedMapIndex _ _ _ hfile

theorem wellFormed_SetCurrentModule (name : String) (h : s.WellFormed) :
    (s.SetCurrentModule name).WellFormed := by
  intro module hm
  simp only [SetCurrentModule, List.mem_append, List.mem_singleton] at hm
  rcases hm with hm | rfl
  · exact h module hm
  · exact ⟨by simp, by simp⟩

theorem RegisterAddress_of_empty (a : Nat) (f : String) (l b : Nat) (h : s.modules_ = []) :
    s.RegisterAddress a f l b = (.error .notCurrentModuleSet, s) := by
  simp [RegisterAddress, GetCurrentModule, h]

theorem RegisterAddress_of_ne_nil (a : Nat) (f : String) (l b : Nat) (h : s.modules_ ≠ []) :
    s.RegisterAddress a f l b =
      match mapFind s.addressLineMap_ a with
      | some _ =>
        (.error .addressAlreadyRegister,
          s.pushBackInstruction (s.modules_.length - 1) f l b)
      | none =>
        (.ok (),
          { s.pushBackInstruction (s.modules_.length - 1) f l b with
            addressLineMap_ := s.addressLineMap_ ++
              [(a, some ((s.pushBackInstruction (s.modules_.length - 1) f l b).backOf
                (s.modules_.length - 1) f l))] }) := by
  have hne : s.modules_.isEmpty = false := by
    cases hm : s.modules_ with
    | nil => exact absurd hm h
    | cons x xs => rfl
  simp only [RegisterAddress, GetCurrentModule, hne, mapEmplace,
    addressLineMap_pushBackInstruction]
  cases mapFind s.addressLineMap_ a <;> simp

theorem wellFormed_RegisterAddress (a : Nat) (f : String) (l b : Nat) (h : s.WellFormed) :
    (s.RegisterAddress a f l b).2.WellFormed := by
  by_cases hm : s.modules_ = []
  · rw [RegisterAddress_of_empty s a f l b hm]
    exact h
  · rw [RegisterAddress_of_ne_nil s a f l b hm]
    cases mapFind s.addressLineMap_ a with
    | some _ => exact wellFormed_pushBackInstruction s _ f l b h
    | none => exact wellFormed_pushBackInstruction s _ f l b h

theorem MarkAddressAsExecuted_eq (a : Nat) :
    s.MarkAddressAsExecuted a =
      match mapFind s.addressLineMap_ a with
      | none => (.error .addressShouldBeRegisterFirst, s)
      | some none => (.error .lineCannotBeNull, s)
      | some (some p) =>
        match s.deref p with
        | none => (.error .invalidPointer, s)
        | some target =>
          (.ok target.instruction_, s.store p (fun i => { i with hasBeenExecuted_ := true })) :=
  rfl

theorem wellFormed_MarkAddressAsExecuted (a : Nat) (h : s.WellFormed) :
    (s.MarkAddressAsExecuted a).2.WellFormed := by
  rw [MarkAddressAsExecuted_eq]
  rcases mapFind s.addressLineMap_ a with _ | _ | p
  · exact h
  · exact h
  · dsimp only
    cases s.deref p with
    | none => exact h
    | some target => exact wellFormed_store s p _ h

theorem wellFormed_after (c : Call) (h : s.WellFormed) : (s.after c).WellFormed := by
  cases c with
  | setCurrentModule name => exact wellFormed_SetCurrentModule s name h
  | registerAddress a f l b => exact wellFormed_RegisterAddress s a f l b h
  | markAddressAsExecuted a => exact wellFormed_MarkAddressAsExecuted s a h

theorem wellFormed_afterAll (calls : List Call) (h : s.WellFormed) :
    (s.afterAll calls).WellFormed := by
  induction calls generalizing s with
  | nil => exact h
  | cons c rest ih => exact ih (s.after c) (wellFormed_after s c h)

end ExecutedAddressManager

theorem wellFormed_run (calls : List Call) : (run calls).WellFormed :=
  ExecutedAddressManager.wellFormed_afterAll _ calls ExecutedAddressManager.wellFormed_new

/-! ## Call sequences, one call at a time -/

theorem afterAll_append (s : ExecutedAddressManager) (calls more : List Call) :
    s.afterAll (calls ++ more) = (s.afterAll calls).afterAll more := by
  simp [ExecutedAddressManager.afterAll, List.foldl_append]

theorem run_append (calls more : List Call) :
    run (calls ++ more) = (run calls).afterAll more :=
  afterAll_append _ calls more

theorem run_concat (calls : List Call) (c : Call) : run (calls ++ [c]) = (run calls).after c := by
  rw [run_append]
  rfl

theorem concat_eq_append_cons {α : Type} (xs : List α) (c : α) (before : List α) (x : α)
    (later : List α) :
    xs ++ [c] = before ++ x :: later ↔
      (later = [] ∧ before = xs ∧ x = c) ∨
        ∃ later', later = later' ++ [c] ∧ xs = before ++ x :: later' := by
  constructor
  · intro h
    rcases List.eq_nil_or_concat later with hnil | ⟨later', c', hlater⟩
    on_goal 2 => rw [List.concat_eq_append] at hlater
    · subst hnil
      have h' : xs ++ [c] = before ++ [x] := h
      have := List.append_inj' h' rfl
      exact Or.inl ⟨rfl, this.1.symm, by simpa using this.2.symm⟩
    · subst hlater
      have h' : xs ++ [c] = (before ++ x :: later') ++ [c'] := by simpa using h
      have := List.append_inj' h' rfl
      have hc : c = c' := by simpa using this.2
      subst hc
      exact Or.inr ⟨later', rfl, this.1⟩
  · rintro (⟨rfl, rfl, rfl⟩ | ⟨later', rfl, rfl⟩)
    · rfl
    · simp

theorem moduleNames_append (calls more : List Call) :
    moduleNames (calls ++ more) = moduleNames calls ++ moduleNames more := by
  induction calls with
  | nil => rfl
  | cons c rest ih => cases c <;> simp [moduleNames, ih]

theorem mem_moduleNames (calls : List Call) (name : String) :
    name ∈ moduleNames calls ↔ Call.setCurrentModule name ∈ calls := by
  induction calls with
  | nil => simp [moduleNames]
  | cons c rest ih => cases c <;> simp [moduleNames, ih]

namespace ExecutedAddressManager

variable (s : ExecutedAddressManager)

theorem names_RegisterAddress (a : Nat) (f : String) (l b : Nat) :
    (s.RegisterAddress a f l b).2.modules_.map Module.name_ = s.modules_.map Module.name_ := by
  by_cases hm : s.modules_ = []
  · rw [RegisterAddress_of_empty s a f l b hm]
  · rw [RegisterAddress_of_ne_nil s a f l b hm]
    cases mapFind s.addressLineMap_ a with
    | some _ => exact names_pushBackInstruction s _ f l b
    | none => exact names_pushBackInstruction s _ f l b

theorem names_MarkAddressAsExecuted (a : Nat) :
    (s.MarkAddressAsExecuted a).2.modules_.map Module.name_ = s.modules_.map Module.name_ := by
  rw [MarkAddressAsExecuted_eq]
  rcases mapFind s.addressLineMap_ a with _ | _ | p
  · rfl
  · rfl
  · dsimp only
    cases s.deref p with
    | none => rfl
    | some target => exact names_store s p _

theorem names_after (c : Call) :
    (s.after c).modules_.map Module.name_ = s.modules_.map Module.name_ ++ moduleNames [c] := by
  cases c with
  | setCurrentModule name => simp [after, SetCurrentModule, moduleNames]
  | registerAddress a f l b => simpa [after, moduleNames] using names_RegisterAddress s a f l b
  | markAddressAsExecuted a => simpa [after, moduleNames] using names_MarkAddressAsExecuted s a

end ExecutedAddressManager

theorem names_run (calls : List Call) :
    (run calls).modules_.map Module.name_ = moduleNames calls := by
  induction calls using List.reverseRecOn with
  | nil => rfl
  | append_singleton calls c ih =>
    rw [run_concat, ExecutedAddressManager.names_after, ih, moduleNames_append]

theorem length_modules_run (calls : List Call) :
    (run calls).modules_.length = (moduleNames calls).length := by
  simpa using congrArg List.length (names_run calls)

theorem modules_run_ne_nil (calls : List Call) (name : String)
    (h : Call.setCurrentModule name ∈ calls) : (run calls).modules_ ≠ [] := by
  intro hnil
  have hlen := length_modules_run calls
  rw [hnil] at hlen
  have hmem := (mem_moduleNames calls name).2 h
  have : moduleNames calls = [] := List.length_eq_zero.1 hlen.symm
  rw [this] at hmem
  simp at hmem

/-! ## The address index -/

theorem mapFind_append_singleton {κ β : Type} [DecidableEq κ] (xs : List (κ × β)) (key key' : κ)
    (v : β) :
    mapFind (xs ++ [(key, v)]) key' =
      match mapFind xs key' with
      | some w => some w
      | none => if key = key' then some v else none := by
  induction xs with
  | nil => simp [mapFind]
  | cons x rest ih =>
    obtain ⟨k, w⟩ := x
    rw [List.cons_append]
    by_cases hk : k = key'
    · simp [mapFind, hk]
    · simp only [mapFind, hk, if_false]
      exact ih

namespace ExecutedAddressManager

variable (s : ExecutedAddressManager)

theorem RegisterAddress_ok_iff (a : Nat) (f : String) (l b : Nat) :
    (s.RegisterAddress a f l b).1 = .ok () ↔
      s.modules_ ≠ [] ∧ mapFind s.addressLineMap_ a = none := by
  by_cases hm : s.modules_ = []
  · simp [RegisterAddress_of_empty s a f l b hm, hm]
  · rw [RegisterAddress_of_ne_nil s a f l b hm]
    cases mapFind s.addressLineMap_ a <;> simp [hm]

theorem RegisterAddress_duplicate_iff (a : Nat) (f : String) (l b : Nat) :
    (s.RegisterAddress a f l b).1 = .error .addressAlreadyRegister ↔
      s.modules_ ≠ [] ∧ mapFind s.addressLineMap_ a ≠ none := by
  by_cases hm : s.modules_ = []
  · simp [RegisterAddress_of_empty s a f l b hm, hm]
  · rw [RegisterAddress_of_ne_nil s a f l b hm]
    cases mapFind s.addressLineMap_ a <;> simp [hm]

theorem mapFind_RegisterAddress (a : Nat) (f : String) (l b : Nat) (a' : Nat) :
    mapFind (s.RegisterAddress a f l b).2.addressLineMap_ a' =
      if (s.modules_ ≠ [] ∧ mapFind s.addressLineMap_ a = none) ∧ a = a' then
        some (some ((s.pushBackInstruction (s.modules_.length - 1) f l b).backOf
          (s.modules_.length - 1) f l))
      else mapFind s.addressLineMap_ a' := by
  by_cases hm : s.modules_ = []
  · simp [RegisterAddress_of_empty s a f l b hm, hm]
  · rw [RegisterAddress_of_ne_nil s a f l b hm]
    cases hfind : mapFind s.addressLineMap_ a with
    | some p => simp
    | none =>
      simp only [mapFind_append_singleton, true_and, ne_eq, hm, not_false_eq_true]
      by_cases ha : a = a'
      · subst ha
        simp [hfind]
      · simp only [ha, if_false]
        cases mapFind s.addressLineMap_ a' <;> rfl

theorem addressLineMap_MarkAddressAsExecuted (a : Nat) :
    (s.MarkAddressAsExecuted a).2.addressLineMap_ = s.addressLineMap_ := by
  rw [MarkAddressAsExecuted_eq]
  rcases mapFind s.addressLineMap_ a with _ | _ | p
  · rfl
  · rfl
  · dsimp only
    cases s.deref p <;> rfl

end ExecutedAddressManager

theorem mapFind_run_ne_none_iff (calls : List Call) (a : Nat) :
    mapFind (run calls).addressLineMap_ a ≠ none ↔ RegisteredOk calls a := by
  induction calls using List.reverseRecOn with
  | nil =>
    constructor
    · intro h
      exact absurd rfl h
    · rintro ⟨before, f, l, b, later, h, -⟩
      simp at h
  | append_singleton calls c ih =>
    have hold : RegisteredOk calls a → RegisteredOk (calls ++ [c]) a := by
      rintro ⟨before, f, l, b, later, h, hok⟩
      exact ⟨before, f, l, b, later ++ [c], by simp [h], hok⟩
    have hsplit : RegisteredOk (calls ++ [c]) a →
        RegisteredOk calls a ∨
          ∃ f l b, c = .registerAddress a f l b ∧ ((run calls).RegisterAddress a f l b).1 = .ok () := by
      rintro ⟨before, f, l, b, later, h, hok⟩
      rcases (concat_eq_append_cons _ _ _ _ _).1 h with ⟨-, rfl, rfl⟩ | ⟨later', -, h'⟩
      · exact Or.inr ⟨f, l, b, rfl, hok⟩
      · exact Or.inl ⟨before, f, l, b, later', h', hok⟩
    rw [run_concat]
    cases c with
    | setCurrentModule name =>
      constructor
      · intro h
        exact hold (ih.1 h)
      · intro h
        rcases hsplit h with h | ⟨f, l, b, hc, -⟩
        · exact ih.2 h
        · cases hc
    | markAddressAsExecuted a' =>
      simp only [ExecutedAddressManager.after,
        ExecutedAddressManager.addressLineMap_MarkAddressAsExecuted]
      constructor
      · intro h
        exact hold (ih.1 h)
      · intro h
        rcases hsplit h with h | ⟨f, l, b, hc, -⟩
        · exact ih.2 h
        · cases hc
    | registerAddress a' f l b =>
      simp only [ExecutedAddressManager.after, ExecutedAddressManager.mapFind_RegisterAddress]
      have hiff := ExecutedAddressManager.RegisterAddress_ok_iff (run calls) a' f l b
      constructor
      · intro h
        by_cases hnew : ((run calls).modules_ ≠ [] ∧
            mapFind (run calls).addressLineMap_ a' = none) ∧ a' = a
        · obtain ⟨hok, rfl⟩ := hnew
          exact ⟨calls, f, l, b, [], rfl, hiff.2 hok⟩
        · rw [if_neg hnew] at h
          exact hold (ih.1 h)
      · intro h
        rcases hsplit h with h | ⟨f', l', b', hc, hok⟩
        · split
          · simp
          · exact ih.2 h
        · cases hc
          rw [if_pos ⟨hiff.1 hok, rfl⟩]
          simp

theorem run_eq_new (calls : List Call) (h : ∀ name, Call.setCurrentModule name ∉ calls) :
    run calls = ExecutedAddressManager.new := by
  induction calls using List.reverseRecOn with
  | nil => rfl
  | append_singleton calls c ih =>
    have hprev := ih (fun name hmem => h name (List.mem_append_left _ hmem))
    rw [run_concat, hprev]
    cases c with
    | setCurrentModule name => exact absurd (by simp) (h name)
    | registerAddress a f l b =>
      simp only [ExecutedAddressManager.after]
      rw [ExecutedAddressManager.RegisterAddress_of_empty ExecutedAddressManager.new a f l b rfl]
    | markAddressAsExecuted a => rfl

/-! ## What a longer call sequence recorded -/

theorem registeredOn_concat (calls : List Call) (c : Call) (k : Nat) (f : String) (l a : Nat) :
    RegisteredOn (calls ++ [c]) k f l a ↔
      RegisteredOn calls k f l a ∨
        ((∃ b, c = Call.registerAddress a f l b) ∧ (moduleNames calls).length = k + 1) := by
  constructor
  · rintro ⟨before, b, later, h, hk⟩
    rcases (concat_eq_append_cons _ _ _ _ _).1 h with ⟨-, rfl, rfl⟩ | ⟨later', -, h'⟩
    · exact Or.inr ⟨⟨b, rfl⟩, hk⟩
    · exact Or.inl ⟨before, b, later', h', hk⟩
  · rintro (⟨before, b, later, h, hk⟩ | ⟨⟨b, rfl⟩, hk⟩)
    · exact ⟨before, b, later ++ [c], by simp [h], hk⟩
    · exact ⟨calls, b, [], rfl, hk⟩

theorem hitOn_concat (calls : List Call) (c : Call) (k : Nat) (f : String) (l a : Nat) :
    HitOn (calls ++ [c]) k f l a ↔
      HitOn calls k f l a ∨ (c = Call.markAddressAsExecuted a ∧ RegisteredOn calls k f l a) := by
  constructor
  · rintro ⟨before, b, between, later, h, hk⟩
    have h' : calls ++ [c] =
        (before ++ Call.registerAddress a f l b :: between) ++
          Call.markAddressAsExecuted a :: later := by
      simpa using h
    rcases (concat_eq_append_cons _ _ _ _ _).1 h' with ⟨-, hcalls, hc⟩ | ⟨later', -, h''⟩
    · exact Or.inr ⟨hc.symm, before, b, between, hcalls.symm, hk⟩
    · exact Or.inl ⟨before, b, between, later', by simpa using h'', hk⟩
  · rintro (⟨before, b, between, later, h, hk⟩ | ⟨rfl, before, b, later, h, hk⟩)
    · exact ⟨before, b, between, later ++ [c], by simp [h], hk⟩
    · exact ⟨before, b, later, [], by simp [h], hk⟩

theorem registeredOn_of_hitOn {calls : List Call} {k : Nat} {f : String} {l a : Nat}
    (h : HitOn calls k f l a) : RegisteredOn calls k f l a := by
  obtain ⟨before, b, between, later, h, hk⟩ := h
  exact ⟨before, b, between ++ Call.markAddressAsExecuted a :: later, h, hk⟩

theorem allSucceed_append (s : ExecutedAddressManager) (calls more : List Call) :
    s.allSucceed (calls ++ more) = (s.allSucceed calls && (s.afterAll calls).allSucceed more) := by
  induction calls generalizing s with
  | nil => rfl
  | cons c rest ih =>
    rw [List.cons_append]
    have hstep : s.afterAll (c :: rest) = (s.after c).afterAll rest := rfl
    simp only [ExecutedAddressManager.allSucceed, ih, hstep, Bool.and_assoc]

theorem allSucceed_concat (calls : List Call) (c : Call) (h : AllSucceed (calls ++ [c])) :
    AllSucceed calls ∧ (run calls).succeeds c = true := by
  unfold AllSucceed at h
  rw [allSucceed_append] at h
  simpa [ExecutedAddressManager.allSucceed, AllSucceed, run] using h

/-! ## Growth -/

namespace ExecutedAddressManager

variable (s : ExecutedAddressManager)

theorem lineAt_SetCurrentModule (name : String) (k : Nat) (f : String) (l : Nat) :
    (s.SetCurrentModule name).lineAt k f l = s.lineAt k f l := by
  unfold lineAt fileAt moduleAt SetCurrentModule
  rcases Nat.lt_trichotomy k s.modules_.length with hk | hk | hk
  · rw [List.getElem?_append_left hk]
  · subst hk
    simp [mapFind]
  · have h1 : s.modules_[k]? = none := List.getElem?_eq_none_iff.2 (by omega)
    have h2 : (s.modules_ ++ [Module.mk name []])[k]? = none :=
      List.getElem?_eq_none_iff.2 (by simp; omega)
    rw [h1, h2]

theorem deref_SetCurrentModule (name : String) (p : InstructionPtr) :
    (s.SetCurrentModule name).deref p = s.deref p := by
  unfold deref
  rw [lineAt_SetCurrentModule]

theorem pred_length_lt (h : s.modules_ ≠ []) : s.modules_.length - 1 < s.modules_.length := by
  have : 0 < s.modules_.length := List.length_pos.2 h
  omega

theorem growsTo_refl : s.GrowsTo s :=
  ⟨fun _ _ h => h, fun _ _ h => h, fun _ i h => ⟨i, h, rfl, fun hi => hi⟩⟩

theorem growsTo_trans {s t u : ExecutedAddressManager} (hst : s.GrowsTo t) (htu : t.GrowsTo u) :
    s.GrowsTo u := by
  refine ⟨fun k name h => htu.1 k name (hst.1 k name h),
    fun a p h => htu.2.1 a p (hst.2.1 a p h), ?_⟩
  intro p i h
  obtain ⟨i', h', hb, he⟩ := hst.2.2 p i h
  obtain ⟨i'', h'', hb', he'⟩ := htu.2.2 p i' h'
  exact ⟨i'', h'', hb'.trans hb, fun hi => he' (he hi)⟩

theorem growsTo_SetCurrentModule (name : String) : s.GrowsTo (s.SetCurrentModule name) := by
  refine ⟨?_, fun _ _ h => h, ?_⟩
  · intro k n h
    have hk : k < (s.modules_.map Module.name_).length := (List.getElem?_eq_some_iff.1 h).1
    simp only [SetCurrentModule, List.map_append]
    rw [List.getElem?_append_left hk]
    exact h
  · intro p i h
    exact ⟨i, by rw [deref_SetCurrentModule]; exact h, rfl, fun hi => hi⟩

theorem growsTo_pushBackInstruction (m : Nat) (f : String) (l b : Nat) (hwf : s.WellFormed)
    (hm : m < s.modules_.length) (idx : List (Nat × Option InstructionPtr))
    (hidx : ∀ (a : Nat) (p : Option InstructionPtr), mapFind s.addressLineMap_ a = some p →
      mapFind idx a = some p) :
    s.GrowsTo { s.pushBackInstruction m f l b with addressLineMap_ := idx } := by
  refine ⟨?_, hidx, ?_⟩
  · intro k n h
    have : ({ s.pushBackInstruction m f l b with addressLineMap_ := idx } :
        ExecutedAddressManager).modules_ = (s.pushBackInstruction m f l b).modules_ := rfl
    rw [this, names_pushBackInstruction]
    exact h
  · intro p i h
    exact ⟨i, deref_pushBackInstruction_of_some s m f l b p i hwf hm h, rfl, fun hi => hi⟩

theorem growsTo_RegisterAddress (a : Nat) (f : String) (l b : Nat) (hwf : s.WellFormed) :
    s.GrowsTo (s.RegisterAddress a f l b).2 := by
  by_cases hm : s.modules_ = []
  · rw [RegisterAddress_of_empty s a f l b hm]
    exact growsTo_refl s
  · rw [RegisterAddress_of_ne_nil s a f l b hm]
    cases hfind : mapFind s.addressLineMap_ a with
    | some p =>
      exact growsTo_pushBackInstruction s _ f l b hwf (pred_length_lt s hm) s.addressLineMap_
        (fun _ _ h => h)
    | none =>
      refine growsTo_pushBackInstruction s _ f l b hwf (pred_length_lt s hm) _ ?_
      intro a' p h
      rw [mapFind_append_singleton, h]

theorem growsTo_store (q : InstructionPtr) : s.GrowsTo
    (s.store q (fun i => { i with hasBeenExecuted_ := true })) := by
  refine ⟨?_, fun _ _ h => h, ?_⟩
  · intro k n h
    rw [names_store]
    exact h
  · intro p i h
    rw [deref_store, h]
    by_cases hq : q = p
    · exact ⟨{ i with hasBeenExecuted_ := true }, by simp [hq], rfl, fun _ => rfl⟩
    · exact ⟨i, by simp [hq], rfl, fun hi => hi⟩

theorem growsTo_MarkAddressAsExecuted (a : Nat) : s.GrowsTo (s.MarkAddressAsExecuted a).2 := by
  rw [MarkAddressAsExecuted_eq]
  rcases mapFind s.addressLineMap_ a with _ | _ | p
  · exact growsTo_refl s
  · exact growsTo_refl s
  · dsimp only
    cases s.deref p with
    | none => exact growsTo_refl s
    | some target => exact growsTo_store s p

theorem growsTo_after (c : Call) (hwf : s.WellFormed) : s.GrowsTo (s.after c) := by
  cases c with
  | setCurrentModule name => exact growsTo_SetCurrentModule s name
  | registerAddress a f l b => exact growsTo_RegisterAddress s a f l b hwf
  | markAddressAsExecuted a => exact growsTo_MarkAddressAsExecuted s a

theorem growsTo_afterAll (calls : List Call) (hwf : s.WellFormed) :
    s.GrowsTo (s.afterAll calls) := by
  induction calls generalizing s with
  | nil => exact growsTo_refl s
  | cons c rest ih =>
    exact growsTo_trans (growsTo_after s c hwf) (ih (s.after c) (wellFormed_after s c hwf))

/-! ## The index stays valid -/

theorem indexValid_of_growsTo {s t : ExecutedAddressManager} (hs : s.IndexValid)
    (hst : s.GrowsTo t) (hidx : t.addressLineMap_ = s.addressLineMap_) : t.IndexValid := by
  intro a p h
  rw [hidx] at h
  obtain ⟨q, hq, hsome⟩ := hs a p h
  obtain ⟨i, hi⟩ := Option.isSome_iff_exists.1 hsome
  obtain ⟨i', hi', -, -⟩ := hst.2.2 q i hi
  exact ⟨q, hq, by simp [hi']⟩

theorem indexValid_RegisterAddress (a : Nat) (f : String) (l b : Nat) (hwf : s.WellFormed)
    (hs : s.IndexValid) : (s.RegisterAddress a f l b).2.IndexValid := by
  have hgrow := growsTo_RegisterAddress s a f l b hwf
  intro a' p h
  rw [mapFind_RegisterAddress] at h
  by_cases hnew : (s.modules_ ≠ [] ∧ mapFind s.addressLineMap_ a = none) ∧ a = a'
  · rw [if_pos hnew] at h
    refine ⟨_, (Option.some.inj h).symm, ?_⟩
    rw [RegisterAddress_of_ne_nil s a f l b hnew.1.1, hnew.1.2]
    have := deref_backOf_pushBackInstruction s _ f l b hwf (pred_length_lt s hnew.1.1)
    have hderef : ∀ (idx : List (Nat × Option InstructionPtr)) (q : InstructionPtr),
        ({ s.pushBackInstruction (s.modules_.length - 1) f l b with addressLineMap_ := idx } :
          ExecutedAddressManager).deref q =
          (s.pushBackInstruction (s.modules_.length - 1) f l b).deref q := fun _ _ => rfl
    simp only [hderef, this, Option.isSome_some]
  · rw [if_neg hnew] at h
    obtain ⟨q, hq, hsome⟩ := hs a' p h
    obtain ⟨i, hi⟩ := Option.isSome_iff_exists.1 hsome
    obtain ⟨i', hi', -, -⟩ := hgrow.2.2 q i hi
    exact ⟨q, hq, by simp [hi']⟩

theorem indexValid_after (c : Call) (hwf : s.WellFormed) (hs : s.IndexValid) :
    (s.after c).IndexValid := by
  cases c with
  | setCurrentModule name =>
    exact indexValid_of_growsTo hs (growsTo_SetCurrentModule s name) rfl
  | registerAddress a f l b => exact indexValid_RegisterAddress s a f l b hwf hs
  | markAddressAsExecuted a =>
    exact indexValid_of_growsTo hs (growsTo_MarkAddressAsExecuted s a)
      (addressLineMap_MarkAddressAsExecuted s a)

end ExecutedAddressManager

theorem indexValid_run (calls : List Call) : (run calls).IndexValid := by
  induction calls using List.reverseRecOn with
  | nil =>
    intro a p h
    simp [run, ExecutedAddressManager.afterAll, ExecutedAddressManager.new, mapFind] at h
  | append_singleton calls c ih =>
    rw [run_concat]
    exact ExecutedAddressManager.indexValid_after _ c (wellFormed_run calls) ih

/-! ## The report in closed form -/

theorem HasLineBeenExecuted_loop_iff (instructions : List Instruction) :
    Line.HasLineBeenExecuted.loop instructions = true ↔
      ∃ i ∈ instructions, i.hasBeenExecuted_ = true := by
  induction instructions with
  | nil => simp [Line.HasLineBeenExecuted.loop]
  | cons i rest ih =>
    by_cases hi : i.hasBeenExecuted_ = true
    · simp [Line.HasLineBeenExecuted.loop, hi]
    · simp [Line.HasLineBeenExecuted.loop, hi, ih]

theorem lineLoop_eq (lines : List (Nat × Line)) (fileCoverage : FileCoverage) :
    CreateCoverageData.lineLoop (File.mk lines) fileCoverage =
      { fileCoverage with lines := fileCoverage.lines ++ (File.mk lines).lineEntries } := by
  induction lines generalizing fileCoverage with
  | nil => simp [CreateCoverageData.lineLoop, File.lineEntries]
  | cons pair rest ih =>
    have hstep : CreateCoverageData.lineLoop (File.mk (pair :: rest)) fileCoverage =
        CreateCoverageData.lineLoop (File.mk rest)
          (fileCoverage.AddLine pair.1 pair.2.HasLineBeenExecuted) := rfl
    rw [hstep, ih]
    simp [FileCoverage.AddLine, File.lineEntries]

theorem fileLoop_eq (files : List (String × File)) (name : String)
    (moduleCoverage : ModuleCoverage) :
    CreateCoverageData.fileLoop (Module.mk name files) moduleCoverage =
      { moduleCoverage with
        files := moduleCoverage.files ++ (Module.mk name files).fileEntries } := by
  induction files generalizing moduleCoverage with
  | nil => simp [CreateCoverageData.fileLoop, Module.fileEntries]
  | cons file rest ih =>
    have hstep : CreateCoverageData.fileLoop (Module.mk name (file :: rest)) moduleCoverage =
        CreateCoverageData.fileLoop (Module.mk name rest)
          (moduleCoverage.AddFile
            (CreateCoverageData.lineLoop file.2 { path := file.1, lines := [] })) := rfl
    rw [hstep, ih]
    have hline := lineLoop_eq file.2.lines { path := file.1, lines := [] }
    simp only [List.nil_append] at hline
    simp [ModuleCoverage.AddFile, Module.fileEntries, hline]

theorem moduleLoop_eq (modules : List Module) (coverageData : CoverageData) :
    modules.foldl
        (fun coverageData module =>
          coverageData.AddModule
            (CreateCoverageData.fileLoop module { name := module.name_, files := [] }))
        coverageData =
      { coverageData with
        modules := coverageData.modules ++
          modules.map (fun module => { name := module.name_, files := module.fileEntries }) } := by
  induction modules generalizing coverageData with
  | nil => simp
  | cons module rest ih =>
    rw [List.foldl_cons, ih]
    have hfile := fileLoop_eq module.files_ module.name_ { name := module.name_, files := [] }
    simp only [List.nil_append] at hfile
    simp [CoverageData.AddModule, hfile]

namespace ExecutedAddressManager

variable (s : ExecutedAddressManager)

theorem CreateCoverageData_eq (name : String) :
    s.CreateCoverageData name =
      { name := name,
        modules :=
          s.modules_.map (fun module => { name := module.name_, files := module.fileEntries }) } := by
  unfold CreateCoverageData
  rw [moduleLoop_eq]
  simp

theorem CreateCoverageData_getElem? (name : String) (k : Nat) :
    (s.CreateCoverageData name).modules[k]? =
      (s.moduleAt k).map (fun module => { name := module.name_, files := module.fileEntries }) := by
  rw [CreateCoverageData_eq]
  simp [moduleAt, List.getElem?_map]

theorem names_CreateCoverageData (name : String) :
    (s.CreateCoverageData name).modules.map ModuleCoverage.name =
      s.modules_.map Module.name_ := by
  rw [CreateCoverageData_eq]
  simp [Function.comp_def]

/-- A line of the tree has its entry in the report. -/
theorem entry_of_lineAt (name : String) (k : Nat) (f : String) (l : Nat) (line : Line)
    (h : s.lineAt k f l = some line) :
    ∃ mc, (s.CreateCoverageData name).modules[k]? = some mc ∧
      (s.modules_.map Module.name_)[k]? = some mc.name ∧
      ∃ fc ∈ mc.files, fc.path = f ∧ (l, line.HasLineBeenExecuted) ∈ fc.lines := by
  unfold lineAt fileAt at h
  cases hmodule : s.moduleAt k with
  | none => simp [hmodule] at h
  | some module =>
    simp only [hmodule, Option.some_bind] at h
    cases hfile : mapFind module.files_ f with
    | none => simp [hfile] at h
    | some file =>
      simp only [hfile, Option.some_bind] at h
      refine ⟨{ name := module.name_, files := module.fileEntries }, ?_, ?_,
        { path := f, lines := file.lineEntries }, ?_, rfl, ?_⟩
      · rw [CreateCoverageData_getElem?, hmodule]
        rfl
      · unfold moduleAt at hmodule
        simp [List.getElem?_map, hmodule]
      · exact List.mem_map.2 ⟨(f, file), mem_of_mapFind hfile, rfl⟩
      · exact List.mem_map.2 ⟨(l, line), mem_of_mapFind h, rfl⟩

/-- An entry of the report comes from a line of the tree. -/
theorem lineAt_of_entry (name : String) (k : Nat) (mc : ModuleCoverage) (fc : FileCoverage)
    (l : Nat) (e : Bool) (hwf : s.WellFormed)
    (hmc : (s.CreateCoverageData name).modules[k]? = some mc) (hfc : fc ∈ mc.files)
    (hl : (l, e) ∈ fc.lines) :
    ∃ line, s.lineAt k fc.path l = some line ∧ e = line.HasLineBeenExecuted := by
  rw [CreateCoverageData_getElem?] at hmc
  cases hmodule : s.moduleAt k with
  | none => simp [hmodule] at hmc
  | some module =>
    simp only [hmodule, Option.map_some', Option.some.injEq] at hmc
    subst hmc
    have hmem : module ∈ s.modules_ := List.getElem?_mem hmodule
    obtain ⟨⟨f, file⟩, hfile, rfl⟩ := List.mem_map.1 hfc
    obtain ⟨⟨l', line⟩, hline, heq⟩ := List.mem_map.1 hl
    simp only [Prod.mk.injEq] at heq
    obtain ⟨rfl, rfl⟩ := heq
    refine ⟨line, ?_, rfl⟩
    have h1 : mapFind module.files_ f = some file := mapFind_of_mem (hwf module hmem).1 hfile
    have h2 : mapFind file.lines l' = some line :=
      mapFind_of_mem (nodup_of_sorted ((hwf module hmem).2 (f, file) hfile)) hline
    simp [lineAt, fileAt, hmodule, h1, h2]

theorem HasLineBeenExecuted_of_deref (p : InstructionPtr) (line : Line) (i : Instruction)
    (hline : s.lineAt p.module p.file p.line = some line) (hi : s.deref p = some i)
    (hexec : i.hasBeenExecuted_ = true) : line.HasLineBeenExecuted = true := by
  unfold deref at hi
  simp only [hline, Option.some_bind] at hi
  exact (HasLineBeenExecuted_loop_iff _).2 ⟨i, List.getElem?_mem hi, hexec⟩

theorem lineAt_of_deref (p : InstructionPtr) (i : Instruction) (hi : s.deref p = some i) :
    ∃ line, s.lineAt p.module p.file p.line = some line := by
  unfold deref at hi
  cases hline : s.lineAt p.module p.file p.line with
  | none => simp [hline] at hi
  | some line => exact ⟨line, rfl⟩

theorem MarkAddressAsExecuted_of_mapFind (a : Nat) (q : InstructionPtr) (hs : s.IndexValid)
    (h : mapFind s.addressLineMap_ a = some (some q)) :
    ∃ i, s.deref q = some i ∧
      s.MarkAddressAsExecuted a =
        (.ok i.instruction_, s.store q (fun i => { i with hasBeenExecuted_ := true })) := by
  obtain ⟨q', hq', hsome⟩ := hs a _ h
  cases hq'
  obtain ⟨i, hi⟩ := Option.isSome_iff_exists.1 hsome
  exact ⟨i, hi, by rw [MarkAddressAsExecuted_eq, h]; simp only [hi]⟩

theorem MarkAddressAsExecuted_unknown_iff (a : Nat) :
    (s.MarkAddressAsExecuted a).1 = .error .addressShouldBeRegisterFirst ↔
      mapFind s.addressLineMap_ a = none := by
  rw [MarkAddressAsExecuted_eq]
  rcases mapFind s.addressLineMap_ a with _ | _ | p
  · simp
  · simp
  · dsimp only
    cases s.deref p <;> simp

theorem MarkAddressAsExecuted_error (a : Nat) (e : Error)
    (h : (s.MarkAddressAsExecuted a).1 = .error e) : (s.MarkAddressAsExecuted a).2 = s := by
  revert h
  rw [MarkAddressAsExecuted_eq]
  rcases mapFind s.addressLineMap_ a with _ | _ | p
  · exact fun _ => rfl
  · exact fun _ => rfl
  · dsimp only
    cases s.deref p with
    | none => exact fun _ => rfl
    | some target =>
      intro h
      simp at h

end ExecutedAddressManager

namespace ExecutedAddressManager

theorem store_store (s : ExecutedAddressManager) (q : InstructionPtr)
    (g : Instruction → Instruction) (hg : ∀ i, g (g i) = g i) :
    (s.store q g).store q g = s.store q g := by
  have hgg : (fun i => g (g i)) = g := funext hg
  simp only [store, withLine, withFile, withModule, seqModify_seqModify, mapModify_mapModify, hgg]

theorem deref_withIndex (s : ExecutedAddressManager) (idx : List (Nat × Option InstructionPtr))
    (p : InstructionPtr) :
    ({ s with addressLineMap_ := idx } : ExecutedAddressManager).deref p = s.deref p := rfl

end ExecutedAddressManager

/-- The state and the index entry right after a `RegisterAddress` call that
returned: the address is bound to the new last node of its line, which holds the
byte and a clear flag. -/
theorem registered_node (s : ExecutedAddressManager) (a : Nat) (f : String) (l b : Nat)
    (hwf : s.WellFormed) (hok : (s.RegisterAddress a f l b).1 = .ok ()) :
    ∃ q : InstructionPtr, q.module = s.modules_.length - 1 ∧ q.file = f ∧ q.line = l ∧
      mapFind (s.RegisterAddress a f l b).2.addressLineMap_ a = some (some q) ∧
      (s.RegisterAddress a f l b).2.deref q = some (Instruction.mk b false) ∧
      s.deref q = none ∧ q.index = (s.instructionsAt (s.modules_.length - 1) f l).length := by
  have hcond := (ExecutedAddressManager.RegisterAddress_ok_iff s a f l b).1 hok
  refine ⟨(s.pushBackInstruction (s.modules_.length - 1) f l b).backOf
    (s.modules_.length - 1) f l, rfl, rfl, rfl, ?_, ?_, ?_, ?_⟩
  on_goal 4 =>
    rw [ExecutedAddressManager.backOf_pushBackInstruction s _ f l b hwf
      (ExecutedAddressManager.pred_length_lt s hcond.1)]
  · rw [ExecutedAddressManager.mapFind_RegisterAddress, if_pos ⟨hcond, rfl⟩]
  · rw [ExecutedAddressManager.RegisterAddress_of_ne_nil s a f l b hcond.1, hcond.2]
    exact ExecutedAddressManager.deref_backOf_pushBackInstruction s _ f l b hwf
      (ExecutedAddressManager.pred_length_lt s hcond.1)
  · exact ExecutedAddressManager.deref_backOf_before s _ f l b hwf
      (ExecutedAddressManager.pred_length_lt s hcond.1)

/-! ## Reading after a registration -/

namespace ExecutedAddressManager

variable (s : ExecutedAddressManager)

theorem fileAt_SetCurrentModule (name : String) (k : Nat) (f : String) :
    (s.SetCurrentModule name).fileAt k f = s.fileAt k f := by
  unfold fileAt moduleAt SetCurrentModule
  rcases Nat.lt_trichotomy k s.modules_.length with hk | hk | hk
  · rw [List.getElem?_append_left hk]
  · subst hk
    simp [mapFind]
  · have h1 : s.modules_[k]? = none := List.getElem?_eq_none_iff.2 (by omega)
    have h2 : (s.modules_ ++ [Module.mk name []])[k]? = none :=
      List.getElem?_eq_none_iff.2 (by simp; omega)
    rw [h1, h2]

theorem modules_RegisterAddress (a : Nat) (f : String) (l b : Nat) (hne : s.modules_ ≠ []) :
    (s.RegisterAddress a f l b).2.modules_ =
      (s.pushBackInstruction (s.modules_.length - 1) f l b).modules_ := by
  rw [RegisterAddress_of_ne_nil s a f l b hne]
  cases mapFind s.addressLineMap_ a <;> rfl

theorem fileAt_congr {s t : ExecutedAddressManager} (h : t.modules_ = s.modules_) (k : Nat)
    (f : String) : t.fileAt k f = s.fileAt k f := by
  unfold fileAt moduleAt
  rw [h]

theorem lineAt_congr {s t : ExecutedAddressManager} (h : t.modules_ = s.modules_) (k : Nat)
    (f : String) (l : Nat) : t.lineAt k f l = s.lineAt k f l := by
  unfold lineAt
  rw [fileAt_congr h]

theorem deref_congr {s t : ExecutedAddressManager} (h : t.modules_ = s.modules_)
    (p : InstructionPtr) : t.deref p = s.deref p := by
  unfold deref
  rw [lineAt_congr h]

theorem fileAt_RegisterAddress (a : Nat) (fn : String) (ln b : Nat) (k : Nat) (f : String)
    (hne : s.modules_ ≠ []) :
    ((s.RegisterAddress a fn ln b).2.fileAt k f).isSome =
      ((decide (s.modules_.length - 1 = k ∧ fn = f) && (s.moduleAt k).isSome) ||
        (s.fileAt k f).isSome) := by
  rw [fileAt_congr (modules_RegisterAddress s a fn ln b hne), fileAt_pushBackInstruction]

theorem lineAt_RegisterAddress (a : Nat) (fn : String) (ln b : Nat) (k : Nat) (f : String)
    (l : Nat) (hwf : s.WellFormed) (hne : s.modules_ ≠ []) :
    (s.RegisterAddress a fn ln b).2.lineAt k f l =
      if s.modules_.length - 1 = k ∧ fn = f ∧ ln = l then
        some { instructions_ := s.instructionsAt k f l ++ [Instruction.mk b false] }
      else s.lineAt k f l := by
  rw [lineAt_congr (modules_RegisterAddress s a fn ln b hne),
    lineAt_pushBackInstruction s _ k fn f ln l b hwf (pred_length_lt s hne)]

theorem deref_RegisterAddress (a : Nat) (fn : String) (ln b : Nat) (p : InstructionPtr)
    (hwf : s.WellFormed) (hne : s.modules_ ≠ []) :
    (s.RegisterAddress a fn ln b).2.deref p =
      if s.modules_.length - 1 = p.module ∧ fn = p.file ∧ ln = p.line then
        (s.instructionsAt p.module p.file p.line ++ [Instruction.mk b false])[p.index]?
      else s.deref p := by
  rw [deref_congr (modules_RegisterAddress s a fn ln b hne),
    deref_pushBackInstruction s _ fn ln b p hwf (pred_length_lt s hne)]

theorem succeeds_registerAddress (a : Nat) (f : String) (l b : Nat) :
    s.succeeds (Call.registerAddress a f l b) = true ↔ (s.RegisterAddress a f l b).1 = .ok () := by
  simp only [succeeds]
  cases h : (s.RegisterAddress a f l b).1 <;> simp

theorem succeeds_markAddressAsExecuted (a : Nat) (hs : s.IndexValid)
    (h : s.succeeds (Call.markAddressAsExecuted a) = true) :
    ∃ q i, mapFind s.addressLineMap_ a = some (some q) ∧ s.deref q = some i ∧
      s.MarkAddressAsExecuted a =
        (.ok i.instruction_, s.store q (fun i => { i with hasBeenExecuted_ := true })) := by
  cases hfind : mapFind s.addressLineMap_ a with
  | none =>
    have : (s.MarkAddressAsExecuted a).1 = .error .addressShouldBeRegisterFirst :=
      (MarkAddressAsExecuted_unknown_iff s a).2 hfind
    simp [succeeds, this] at h
  | some p =>
    obtain ⟨q, rfl, -⟩ := hs a p hfind
    obtain ⟨i, hi, hmark⟩ := MarkAddressAsExecuted_of_mapFind s a q hs hfind
    exact ⟨q, i, rfl, hi, hmark⟩

end ExecutedAddressManager

/-! ## The state mirrors the calls -/

theorem not_registeredOn_nil (k : Nat) (f : String) (l a : Nat) : ¬ RegisteredOn [] k f l a := by
  rintro ⟨before, b, later, h, -⟩
  simp at h

theorem recorded_new : Recorded [] ExecutedAddressManager.new := by
  refine ⟨?_, ?_, ?_, ?_, ?_, ?_, ?_⟩
  · intro k f
    constructor
    · intro h
      simp [ExecutedAddressManager.fileAt, ExecutedAddressManager.moduleAt,
        ExecutedAddressManager.new] at h
    · rintro ⟨l, a, h⟩
      exact absurd h (not_registeredOn_nil k f l a)
  · intro k f l
    constructor
    · intro h
      simp [ExecutedAddressManager.lineAt, ExecutedAddressManager.fileAt,
        ExecutedAddressManager.moduleAt, ExecutedAddressManager.new] at h
    · rintro ⟨a, h⟩
      exact absurd h (not_registeredOn_nil k f l a)
  · intro a q h
    simp [ExecutedAddressManager.new, mapFind] at h
  · intro k f l a h
    exact absurd h (not_registeredOn_nil k f l a)
  · intro a q i h
    simp [ExecutedAddressManager.new, mapFind] at h
  · intro q i h
    simp [ExecutedAddressManager.deref, ExecutedAddressManager.lineAt,
      ExecutedAddressManager.fileAt, ExecutedAddressManager.moduleAt,
      ExecutedAddressManager.new] at h
  · intro a a' q h
    simp [ExecutedAddressManager.new, mapFind] at h

theorem recorded_SetCurrentModule (calls : List Call) (s : ExecutedAddressManager)
    (name : String) (h : Recorded calls s) :
    Recorded (calls ++ [Call.setCurrentModule name]) (s.SetCurrentModule name) := by
  have hreg : ∀ k f l a, RegisteredOn (calls ++ [Call.setCurrentModule name]) k f l a ↔
      RegisteredOn calls k f l a := by
    intro k f l a
    rw [registeredOn_concat]
    simp
  have hhit : ∀ k f l a, HitOn (calls ++ [Call.setCurrentModule name]) k f l a ↔
      HitOn calls k f l a := by
    intro k f l a
    rw [hitOn_concat]
    simp
  refine ⟨?_, ?_, ?_, ?_, ?_, ?_, ?_⟩
  · intro k f
    rw [ExecutedAddressManager.fileAt_SetCurrentModule, h.file_iff]
    simp only [hreg]
  · intro k f l
    rw [ExecutedAddressManager.lineAt_SetCurrentModule, h.line_iff]
    simp only [hreg]
  · intro a q hq
    exact (hreg _ _ _ _).2 (h.bound_registered a q hq)
  · intro k f l a hr
    exact h.registered_bound k f l a ((hreg _ _ _ _).1 hr)
  · intro a q i hq hi
    rw [ExecutedAddressManager.deref_SetCurrentModule] at hi
    rw [hhit]
    exact h.flag_iff a q i hq hi
  · intro q i hi
    rw [ExecutedAddressManager.deref_SetCurrentModule] at hi
    exact h.node_bound q i hi
  · intro a a' q hq hq'
    exact h.bound_injective a a' q hq hq'

theorem recorded_store (calls : List Call) (s : ExecutedAddressManager) (a0 : Nat)
    (q0 : InstructionPtr) (i0 : Instruction) (h : Recorded calls s)
    (hq0 : mapFind s.addressLineMap_ a0 = some (some q0)) (hi0 : s.deref q0 = some i0) :
    Recorded (calls ++ [Call.markAddressAsExecuted a0])
      (s.store q0 (fun i => { i with hasBeenExecuted_ := true })) := by
  have hreg : ∀ k f l a, RegisteredOn (calls ++ [Call.markAddressAsExecuted a0]) k f l a ↔
      RegisteredOn calls k f l a := by
    intro k f l a
    rw [registeredOn_concat]
    simp
  refine ⟨?_, ?_, ?_, ?_, ?_, ?_, ?_⟩
  · intro k f
    rw [ExecutedAddressManager.fileAt_store, h.file_iff]
    simp only [hreg]
  · intro k f l
    have hsome : ((s.store q0 (fun i => { i with hasBeenExecuted_ := true })).lineAt k f l).isSome =
        (s.lineAt k f l).isSome := by
      rw [ExecutedAddressManager.lineAt_store]
      split <;> simp
    rw [hsome, h.line_iff]
    simp only [hreg]
  · intro a q hq
    exact (hreg _ _ _ _).2 (h.bound_registered a q hq)
  · intro k f l a hr
    exact h.registered_bound k f l a ((hreg _ _ _ _).1 hr)
  · intro a q i hq hi
    rw [ExecutedAddressManager.addressLineMap_store] at hq
    rw [ExecutedAddressManager.deref_store] at hi
    rw [hitOn_concat]
    by_cases hqq : q0 = q
    · subst hqq
      have ha : a = a0 := h.bound_injective a a0 q0 hq hq0
      subst ha
      rw [if_pos rfl, hi0] at hi
      simp only [Option.map_some', Option.some.injEq] at hi
      subst hi
      constructor
      · intro _
        exact Or.inr ⟨rfl, h.bound_registered a q0 hq0⟩
      · intro _
        rfl
    · rw [if_neg hqq] at hi
      have ha : a0 ≠ a := by
        rintro rfl
        rw [hq0] at hq
        exact hqq (Option.some.inj (Option.some.inj hq))
      rw [h.flag_iff a q i hq hi]
      constructor
      · exact Or.inl
      · rintro (hhit | ⟨hc, -⟩)
        · exact hhit
        · exact absurd (Call.markAddressAsExecuted.inj hc) ha
  · intro q i hi
    rw [ExecutedAddressManager.deref_store] at hi
    rw [ExecutedAddressManager.addressLineMap_store]
    by_cases hqq : q0 = q
    · subst hqq
      exact ⟨a0, hq0⟩
    · rw [if_neg hqq] at hi
      exact h.node_bound q i hi
  · intro a a' q hq hq'
    exact h.bound_injective a a' q hq hq'

theorem recorded_RegisterAddress (calls : List Call) (s : ExecutedAddressManager) (a0 : Nat)
    (f0 : String) (l0 b0 : Nat) (hwf : s.WellFormed) (hvalid : s.IndexValid)
    (hlen : s.modules_.length = (moduleNames calls).length) (h : Recorded calls s)
    (hok : (s.RegisterAddress a0 f0 l0 b0).1 = .ok ()) :
    Recorded (calls ++ [Call.registerAddress a0 f0 l0 b0]) (s.RegisterAddress a0 f0 l0 b0).2 := by
  obtain ⟨hne, hnone⟩ := (ExecutedAddressManager.RegisterAddress_ok_iff s a0 f0 l0 b0).1 hok
  obtain ⟨q0, hq0m, hq0f, hq0l, hq0, hderef0, hfresh, hq0i⟩ :=
    registered_node s a0 f0 l0 b0 hwf hok
  have hpos : 0 < s.modules_.length := List.length_pos.2 hne
  have hcur : ∀ k, s.modules_.length - 1 = k ↔ (moduleNames calls).length = k + 1 := by
    intro k
    omega
  have hgrow := ExecutedAddressManager.growsTo_RegisterAddress s a0 f0 l0 b0 hwf
  have hreg : ∀ k f l a, RegisteredOn (calls ++ [Call.registerAddress a0 f0 l0 b0]) k f l a ↔
      RegisteredOn calls k f l a ∨
        (a = a0 ∧ f = f0 ∧ l = l0 ∧ s.modules_.length - 1 = k) := by
    intro k f l a
    rw [registeredOn_concat, hcur]
    constructor
    · rintro (hr | ⟨⟨b, hb⟩, hk⟩)
      · exact Or.inl hr
      · cases hb
        exact Or.inr ⟨rfl, rfl, rfl, hk⟩
    · rintro (hr | ⟨rfl, rfl, rfl, hk⟩)
      · exact Or.inl hr
      · exact Or.inr ⟨⟨b0, rfl⟩, hk⟩
  have hhit : ∀ k f l a, HitOn (calls ++ [Call.registerAddress a0 f0 l0 b0]) k f l a ↔
      HitOn calls k f l a := by
    intro k f l a
    rw [hitOn_concat]
    simp
  have hidx : ∀ a, mapFind (s.RegisterAddress a0 f0 l0 b0).2.addressLineMap_ a =
      if a0 = a then some (some q0) else mapFind s.addressLineMap_ a := by
    intro a
    by_cases ha : a0 = a
    · subst ha
      rw [hq0, if_pos rfl]
    · rw [ExecutedAddressManager.mapFind_RegisterAddress, if_neg ha, if_neg (fun hc => ha hc.2)]
  have hold : ∀ a p, mapFind s.addressLineMap_ a = some p → a0 ≠ a := by
    rintro a p hp rfl
    rw [hnone] at hp
    cases hp
  refine ⟨?_, ?_, ?_, ?_, ?_, ?_, ?_⟩
  · intro k f
    rw [ExecutedAddressManager.fileAt_RegisterAddress s a0 f0 l0 b0 k f hne]
    simp only [Bool.or_eq_true, Bool.and_eq_true, decide_eq_true_eq, h.file_iff, hreg,
      ExecutedAddressManager.moduleAt_isSome]
    constructor
    · rintro (⟨⟨hk, hf⟩, -⟩ | ⟨l, a, hr⟩)
      · exact ⟨l0, a0, Or.inr ⟨rfl, hf.symm, rfl, hk⟩⟩
      · exact ⟨l, a, Or.inl hr⟩
    · rintro ⟨l, a, hr | ⟨-, hf, -, hk⟩⟩
      · exact Or.inr ⟨l, a, hr⟩
      · exact Or.inl ⟨⟨hk, hf.symm⟩, by omega⟩
  · intro k f l
    rw [ExecutedAddressManager.lineAt_RegisterAddress s a0 f0 l0 b0 k f l hwf hne]
    simp only [hreg]
    by_cases ht : s.modules_.length - 1 = k ∧ f0 = f ∧ l0 = l
    · rw [if_pos ht]
      simp only [Option.isSome_some, true_iff]
      exact ⟨a0, Or.inr ⟨rfl, ht.2.1.symm, ht.2.2.symm, ht.1⟩⟩
    · rw [if_neg ht, h.line_iff]
      constructor
      · rintro ⟨a, hr⟩
        exact ⟨a, Or.inl hr⟩
      · rintro ⟨a, hr | ⟨-, hf, hl, hk⟩⟩
        · exact ⟨a, hr⟩
        · exact absurd ⟨hk, hf.symm, hl.symm⟩ ht
  · intro a q hq
    rw [hidx] at hq
    rw [hreg]
    by_cases ha : a0 = a
    · rw [if_pos ha] at hq
      cases hq
      exact Or.inr ⟨ha.symm, hq0f, hq0l, hq0m.symm⟩
    · rw [if_neg ha] at hq
      exact Or.inl (h.bound_registered a q hq)
  · intro k f l a hr
    rw [hidx]
    rcases (hreg k f l a).1 hr with hr | ⟨rfl, rfl, rfl, hk⟩
    · obtain ⟨q, hq, hqk⟩ := h.registered_bound k f l a hr
      exact ⟨q, by rw [if_neg (hold a _ hq)]; exact hq, hqk⟩
    · exact ⟨q0, by rw [if_pos rfl], hq0m.trans hk, hq0f, hq0l⟩
  · intro a q i hq hi
    rw [hidx] at hq
    rw [hhit]
    by_cases ha : a0 = a
    · subst ha
      rw [if_pos rfl] at hq
      cases hq
      rw [hderef0] at hi
      cases hi
      constructor
      · intro hfalse
        cases hfalse
      · intro hhitOld
        obtain ⟨q', hq', -⟩ := h.registered_bound _ _ _ _ (registeredOn_of_hitOn hhitOld)
        rw [hnone] at hq'
        cases hq'
    · rw [if_neg ha] at hq
      obtain ⟨q', hq', hsome⟩ := hvalid a _ hq
      cases hq'
      obtain ⟨i', hi'⟩ := Option.isSome_iff_exists.1 hsome
      obtain ⟨i'', hi'', -, -⟩ := hgrow.2.2 q i' hi'
      have hsame : (s.RegisterAddress a0 f0 l0 b0).2.deref q = some i' := by
        rw [ExecutedAddressManager.deref_congr
          (ExecutedAddressManager.modules_RegisterAddress s a0 f0 l0 b0 hne)]
        exact ExecutedAddressManager.deref_pushBackInstruction_of_some s _ f0 l0 b0 q i' hwf
          (ExecutedAddressManager.pred_length_lt s hne) hi'
      rw [hsame] at hi
      cases hi
      exact h.flag_iff a q i hq hi'
  · intro q i hi
    cases hold' : s.deref q with
    | some i' =>
      obtain ⟨a, ha⟩ := h.node_bound q i' hold'
      exact ⟨a, by rw [hidx, if_neg (hold a _ ha)]; exact ha⟩
    | none =>
      refine ⟨a0, ?_⟩
      rw [hidx, if_pos rfl]
      rw [ExecutedAddressManager.deref_RegisterAddress s a0 f0 l0 b0 q hwf hne] at hi
      by_cases ht : s.modules_.length - 1 = q.module ∧ f0 = q.file ∧ l0 = q.line
      · rw [if_pos ht] at hi
        rw [ExecutedAddressManager.deref_eq] at hold'
        have hge := List.getElem?_eq_none_iff.1 hold'
        have hlt := (List.getElem?_eq_some_iff.1 hi).1
        simp only [List.length_append, List.length_singleton] at hlt
        have hindex : q0.index = q.index := by
          rw [hq0i, ht.1, ht.2.1, ht.2.2]
          omega
        have : q0 = q := by
          cases q0
          cases q
          simp only [InstructionPtr.mk.injEq]
          simp only at hq0m hq0f hq0l hindex
          exact ⟨hq0m.trans ht.1, hq0f.trans ht.2.1, hq0l.trans ht.2.2, hindex⟩
        rw [this]
      · rw [if_neg ht, hold'] at hi
        cases hi
  · intro a a' q hq hq'
    rw [hidx] at hq hq'
    by_cases ha : a0 = a
    · by_cases ha' : a0 = a'
      · exact ha.symm.trans ha'
      · rw [if_pos ha] at hq
        rw [if_neg ha'] at hq'
        cases hq
        obtain ⟨q', hqq, hsome⟩ := hvalid a' _ hq'
        cases hqq
        rw [hfresh] at hsome
        cases hsome
    · by_cases ha' : a0 = a'
      · rw [if_neg ha] at hq
        rw [if_pos ha'] at hq'
        cases hq'
        obtain ⟨q', hqq, hsome⟩ := hvalid a _ hq
        cases hqq
        rw [hfresh] at hsome
        cases hsome
      · rw [if_neg ha] at hq
        rw [if_neg ha'] at hq'
        exact h.bound_injective a a' q hq hq'

theorem recorded_run (calls : List Call) (hall : AllSucceed calls) :
    Recorded calls (run calls) := by
  induction calls using List.reverseRecOn with
  | nil => exact recorded_new
  | append_singleton calls c ih =>
    obtain ⟨hprev, hc⟩ := allSucceed_concat calls c hall
    have hrec := ih hprev
    rw [run_concat]
    cases c with
    | setCurrentModule name => exact recorded_SetCurrentModule calls _ name hrec
    | registerAddress a f l b =>
      exact recorded_RegisterAddress calls _ a f l b (wellFormed_run calls) (indexValid_run calls)
        (length_modules_run calls) hrec
        ((ExecutedAddressManager.succeeds_registerAddress _ a f l b).1 hc)
    | markAddressAsExecuted a =>
      obtain ⟨q, i, hq, hi, hmark⟩ :=
        ExecutedAddressManager.succeeds_markAddressAsExecuted _ a (indexValid_run calls) hc
      simp only [ExecutedAddressManager.after, hmark]
      exact recorded_store calls _ a q i hrec hq hi

theorem hasLineBeenExecuted_iff_hitOn (calls : List Call) (s : ExecutedAddressManager)
    (hrec : Recorded calls s) (hvalid : s.IndexValid) (k : Nat) (f : String) (l : Nat)
    (line : Line) (hline : s.lineAt k f l = some line) :
    line.HasLineBeenExecuted = true ↔ ∃ a, HitOn calls k f l a := by
  constructor
  · intro hexec
    obtain ⟨i, hi, hflag⟩ := (HasLineBeenExecuted_loop_iff _).1 hexec
    obtain ⟨j, hj⟩ := List.getElem?_of_mem hi
    have hderef : s.deref { module := k, file := f, line := l, index := j } = some i := by
      simp [ExecutedAddressManager.deref, hline, hj]
    obtain ⟨a, ha⟩ := hrec.node_bound _ i hderef
    exact ⟨a, (hrec.flag_iff a _ i ha hderef).1 hflag⟩
  · rintro ⟨a, hhit⟩
    obtain ⟨q, hq, rfl, rfl, rfl⟩ := hrec.registered_bound k f l a (registeredOn_of_hitOn hhit)
    obtain ⟨q', hq', hsome⟩ := hvalid a _ hq
    cases hq'
    obtain ⟨i, hi⟩ := Option.isSome_iff_exists.1 hsome
    exact ExecutedAddressManager.HasLineBeenExecuted_of_deref s q line i hline hi
      ((hrec.flag_iff a q i hq hi).2 hhit)

/-- The entries of the report for the module at position `k`, read off the
tree. -/
theorem entries_of_getElem? (s : ExecutedAddressManager) (name : String) (k : Nat)
    (mc : ModuleCoverage) (hwf : s.WellFormed)
    (hmc : (s.CreateCoverageData name).modules[k]? = some mc) :
    (mc.files.map FileCoverage.path).Nodup ∧
      (∀ f, f ∈ mc.files.map FileCoverage.path ↔ (s.fileAt k f).isSome = true) ∧
      ∀ fc ∈ mc.files,
        (fc.lines.map Prod.fst).Pairwise (· < ·) ∧
          ∀ l, l ∈ fc.lines.map Prod.fst ↔ (s.lineAt k fc.path l).isSome = true := by
  rw [ExecutedAddressManager.CreateCoverageData_getElem?] at hmc
  cases hmodule : s.moduleAt k with
  | none => simp [hmodule] at hmc
  | some module =>
    simp only [hmodule, Option.map_some', Option.some.injEq] at hmc
    subst hmc
    have hmem : module ∈ s.modules_ := List.getElem?_mem hmodule
    have hpaths : (module.fileEntries).map FileCoverage.path = module.files_.map Prod.fst := by
      simp [Module.fileEntries, Function.comp_def]
    refine ⟨?_, ?_, ?_⟩
    · show ((module.fileEntries).map FileCoverage.path).Nodup
      rw [hpaths]
      exact (hwf module hmem).1
    · intro f
      show f ∈ (module.fileEntries).map FileCoverage.path ↔ _
      rw [hpaths, ← mapFind_isSome_iff]
      simp [ExecutedAddressManager.fileAt, hmodule]
    · intro fc hfc
      obtain ⟨⟨f, file⟩, hfile, rfl⟩ := List.mem_map.1 hfc
      have hkeys : (file.lineEntries).map Prod.fst = file.lines.map Prod.fst := by
        simp [File.lineEntries, Function.comp_def]
      have hfind : mapFind module.files_ f = some file :=
        mapFind_of_mem (hwf module hmem).1 hfile
      refine ⟨?_, ?_⟩
      · show ((file.lineEntries).map Prod.fst).Pairwise (· < ·)
        rw [hkeys]
        exact (hwf module hmem).2 (f, file) hfile
      · intro l
        show l ∈ (file.lineEntries).map Prod.fst ↔ _
        rw [hkeys, ← mapFind_isSome_iff]
        simp [ExecutedAddressManager.lineAt, ExecutedAddressManager.fileAt, hmodule, hfind]

/-! ## Reading the report of a state -/

theorem mapFind_lineEntries (file : File) (l : Nat) :
    mapFind file.lineEntries l = (mapFind file.lines l).map Line.HasLineBeenExecuted := by
  obtain ⟨lines⟩ := file
  unfold File.lineEntries
  induction lines with
  | nil => rfl
  | cons pair rest ih =>
    obtain ⟨k, line⟩ := pair
    by_cases hk : k = l
    · simp [mapFind, hk]
    · simpa [mapFind, hk] using ih

theorem find?_fileEntries (module : Module) (f : String) :
    (ModuleCoverage.mk module.name_ module.fileEntries).file f =
      (mapFind module.files_ f).map (fun file => { path := f, lines := file.lineEntries }) := by
  obtain ⟨name, files⟩ := module
  unfold ModuleCoverage.file Module.fileEntries
  induction files with
  | nil => rfl
  | cons file rest ih =>
    obtain ⟨k, v⟩ := file
    by_cases hk : k = f
    · simp [mapFind, hk]
    · simpa [mapFind, hk, List.find?_cons] using ih

namespace ExecutedAddressManager

variable (s : ExecutedAddressManager)

theorem file_CreateCoverageData (name : String) (k : Nat) (f : String) :
    (s.CreateCoverageData name).file k f =
      (s.fileAt k f).map (fun file => { path := f, lines := file.lineEntries }) := by
  unfold CoverageData.file fileAt
  rw [CreateCoverageData_getElem?]
  cases s.moduleAt k with
  | none => rfl
  | some module => exact find?_fileEntries module f

theorem executed_CreateCoverageData (name : String) (k : Nat) (f : String) (l : Nat) :
    (s.CreateCoverageData name).executed k f l =
      (s.lineAt k f l).map Line.HasLineBeenExecuted := by
  unfold CoverageData.executed lineAt
  rw [file_CreateCoverageData]
  cases s.fileAt k f with
  | none => rfl
  | some file => exact mapFind_lineEntries file l

theorem outline_CreateCoverageData (name : String) :
    (s.CreateCoverageData name).outline =
      s.modules_.map (fun module =>
        (module.name_, module.files_.map (fun file => (file.1, file.2.lines.map Prod.fst)))) := by
  rw [CreateCoverageData_eq]
  simp [CoverageData.outline, Module.fileEntries, File.lineEntries, Function.comp_def]

end ExecutedAddressManager

/-- What a registration that returned leaves behind for good: after any
further calls the address is still bound to a node of the line it was registered
on, the node still holds the byte, and a hit sets its flag and returns the
byte. -/
theorem bound_after_registration (before later : List Call) (a : Nat) (f : String) (l b : Nat)
    (hok : ((run before).RegisterAddress a f l b).1 = .ok ()) :
    ∃ (q : InstructionPtr) (i : Instruction),
      q.module = (moduleNames before).length - 1 ∧ q.file = f ∧ q.line = l ∧
      mapFind (run (before ++ Call.registerAddress a f l b :: later)).addressLineMap_ a =
        some (some q) ∧
      (run (before ++ Call.registerAddress a f l b :: later)).deref q = some i ∧
      i.instruction_ = b ∧
      (run (before ++ Call.registerAddress a f l b :: later)).MarkAddressAsExecuted a =
        (.ok b,
          (run (before ++ Call.registerAddress a f l b :: later)).store q
            (fun i => { i with hasBeenExecuted_ := true })) := by
  have hwf0 := wellFormed_run before
  obtain ⟨q, hqm, hqf, hql, hidx1, hderef1, -, -⟩ :=
    registered_node (run before) a f l b hwf0 hok
  have hrun : run (before ++ Call.registerAddress a f l b :: later) =
      ((run before).RegisterAddress a f l b).2.afterAll later := by
    rw [run_append]
    rfl
  have hgrow := ExecutedAddressManager.growsTo_afterAll _ later
    (ExecutedAddressManager.wellFormed_RegisterAddress (run before) a f l b hwf0)
  rw [← hrun] at hgrow
  have hidx2 := hgrow.2.1 _ _ hidx1
  obtain ⟨i2, hderef2, hbyte, -⟩ := hgrow.2.2 _ _ hderef1
  obtain ⟨i, hi, hmark⟩ := ExecutedAddressManager.MarkAddressAsExecuted_of_mapFind _ a q
    (indexValid_run _) hidx2
  rw [hderef2] at hi
  cases hi
  have hbyte' : i2.instruction_ = b := by simpa using hbyte
  refine ⟨q, i2, ?_, hqf, hql, hidx2, hderef2, hbyte', ?_⟩
  · rw [hqm, length_modules_run]
  · rw [hmark, hbyte']

/-! ## Nothing is removed -/

theorem map_mapModify {κ β γ : Type} [DecidableEq κ] (g : β → β) (h : β → γ)
    (xs : List (κ × β)) (key : κ) (hg : ∀ v, h (g v) = h v) :
    (mapModify g xs key).map (fun e => (e.1, h e.2)) = xs.map (fun e => (e.1, h e.2)) := by
  induction xs with
  | nil => rfl
  | cons x rest ih =>
    obtain ⟨k, v⟩ := x
    by_cases hk : k = key
    · simp [mapModify, hk, hg]
    · simp [mapModify, hk, ih]

namespace ExecutedAddressManager

variable (s : ExecutedAddressManager)

theorem getElem?_modules_pushBackInstruction (m : Nat) (f : String) (l b : Nat) (k : Nat)
    (hk : m ≠ k) : (s.pushBackInstruction m f l b).modules_[k]? = s.modules_[k]? := by
  simp only [pushBackInstruction, withLine, withFile, withModule, getElem?_seqModify, if_neg hk]

theorem length_modules_pushBackInstruction (m : Nat) (f : String) (l b : Nat) :
    (s.pushBackInstruction m f l b).modules_.length = s.modules_.length :=
  length_of_names (names_pushBackInstruction s m f l b)

theorem outline_store (name : String) (q : InstructionPtr) (g : Instruction → Instruction) :
    ((s.store q g).CreateCoverageData name).outline = (s.CreateCoverageData name).outline := by
  rw [outline_CreateCoverageData, outline_CreateCoverageData]
  simp only [store, withLine, withFile, withModule]
  refine map_seqModify _ _ s.modules_ q.module ?_
  intro module
  simp only [Prod.mk.injEq, true_and]
  refine map_mapModify _ (fun file : File => file.lines.map Prod.fst) module.files_ q.file ?_
  intro file
  exact map_fst_mapModify _ file.lines q.line

theorem fileAt_after_isSome (c : Call) (k : Nat) (f : String)
    (h : (s.fileAt k f).isSome = true) : ((s.after c).fileAt k f).isSome = true := by
  cases c with
  | setCurrentModule name =>
    simp only [after]
    rw [fileAt_SetCurrentModule]
    exact h
  | registerAddress a fn ln b =>
    simp only [after]
    by_cases hne : s.modules_ = []
    · rw [RegisterAddress_of_empty s a fn ln b hne]
      exact h
    · rw [fileAt_RegisterAddress s a fn ln b k f hne, h]
      simp
  | markAddressAsExecuted a =>
    simp only [after]
    rw [MarkAddressAsExecuted_eq]
    rcases mapFind s.addressLineMap_ a with _ | _ | p
    · exact h
    · exact h
    · dsimp only
      cases s.deref p with
      | none => exact h
      | some target =>
        dsimp only
        rw [fileAt_store]
        exact h

theorem lineAt_after_isSome (c : Call) (hwf : s.WellFormed) (k : Nat) (f : String) (l : Nat)
    (h : (s.lineAt k f l).isSome = true) : ((s.after c).lineAt k f l).isSome = true := by
  cases c with
  | setCurrentModule name =>
    simp only [after]
    rw [lineAt_SetCurrentModule]
    exact h
  | registerAddress a fn ln b =>
    simp only [after]
    by_cases hne : s.modules_ = []
    · rw [RegisterAddress_of_empty s a fn ln b hne]
      exact h
    · rw [lineAt_RegisterAddress s a fn ln b k f l hwf hne]
      split
      · rfl
      · exact h
  | markAddressAsExecuted a =>
    simp only [after]
    rw [MarkAddressAsExecuted_eq]
    rcases mapFind s.addressLineMap_ a with _ | _ | p
    · exact h
    · exact h
    · dsimp only
      cases s.deref p with
      | none => exact h
      | some target =>
        dsimp only
        rw [lineAt_store]
        split
        · simpa using h
        · exact h

theorem hasLineBeenExecuted_of_growsTo {s t : ExecutedAddressManager} (hst : s.GrowsTo t)
    (k : Nat) (f : String) (l : Nat) (line line' : Line) (hline : s.lineAt k f l = some line)
    (hline' : t.lineAt k f l = some line') (hexec : line.HasLineBeenExecuted = true) :
    line'.HasLineBeenExecuted = true := by
  obtain ⟨i, hi, hflag⟩ := (HasLineBeenExecuted_loop_iff _).1 hexec
  obtain ⟨j, hj⟩ := List.getElem?_of_mem hi
  have hderef : s.deref { module := k, file := f, line := l, index := j } = some i := by
    simp [deref, hline, hj]
  obtain ⟨i', hi', -, hflag'⟩ := hst.2.2 _ i hderef
  exact HasLineBeenExecuted_of_deref t { module := k, file := f, line := l, index := j } line' i'
    hline' hi' (hflag' hflag)

/-! ## Distinct addresses, distinct nodes -/

theorem indexInjective_after (c : Call) (hwf : s.WellFormed) (hvalid : s.IndexValid)
    (hinj : s.IndexInjective) : (s.after c).IndexInjective := by
  cases c with
  | setCurrentModule name => exact hinj
  | markAddressAsExecuted a =>
    intro a1 a2 q h1 h2
    simp only [after, addressLineMap_MarkAddressAsExecuted] at h1 h2
    exact hinj a1 a2 q h1 h2
  | registerAddress a0 f l b =>
    intro a1 a2 q h1 h2
    simp only [after, mapFind_RegisterAddress] at h1 h2
    by_cases hok : s.modules_ ≠ [] ∧ mapFind s.addressLineMap_ a0 = none
    · have hfresh := deref_backOf_before s _ f l b hwf (pred_length_lt s hok.1)
      have hne : ∀ a' q', mapFind s.addressLineMap_ a' = some (some q') →
          q' ≠ (s.pushBackInstruction (s.modules_.length - 1) f l b).backOf
            (s.modules_.length - 1) f l := by
        rintro a' q' hq' rfl
        obtain ⟨q'', hqq, hsome⟩ := hvalid a' _ hq'
        cases hqq
        rw [hfresh] at hsome
        cases hsome
      by_cases ha1 : a0 = a1
      · by_cases ha2 : a0 = a2
        · exact ha1.symm.trans ha2
        · rw [if_pos ⟨hok, ha1⟩] at h1
          rw [if_neg (fun hc => ha2 hc.2)] at h2
          cases h1
          exact absurd rfl (hne a2 _ h2)
      · by_cases ha2 : a0 = a2
        · rw [if_neg (fun hc => ha1 hc.2)] at h1
          rw [if_pos ⟨hok, ha2⟩] at h2
          cases h2
          exact absurd rfl (hne a1 _ h1)
        · rw [if_neg (fun hc => ha1 hc.2)] at h1
          rw [if_neg (fun hc => ha2 hc.2)] at h2
          exact hinj a1 a2 q h1 h2
    · rw [if_neg (fun hc => hok hc.1)] at h1 h2
      exact hinj a1 a2 q h1 h2

end ExecutedAddressManager

theorem indexInjective_run (calls : List Call) : (run calls).IndexInjective := by
  induction calls using List.reverseRecOn with
  | nil =>
    intro a a' q h
    simp [run, ExecutedAddressManager.afterAll, ExecutedAddressManager.new, mapFind] at h
  | append_singleton calls c ih =>
    rw [run_concat]
    exact ExecutedAddressManager.indexInjective_after _ c (wellFormed_run calls)
      (indexValid_run calls) ih

theorem names_afterAll (s : ExecutedAddressManager) (calls : List Call) :
    (s.afterAll calls).modules_.map Module.name_ =
      s.modules_.map Module.name_ ++ moduleNames calls := by
  induction calls generalizing s with
  | nil => simp [ExecutedAddressManager.afterAll, moduleNames]
  | cons c rest ih =>
    have hstep : s.afterAll (c :: rest) = (s.after c).afterAll rest := rfl
    have hnames : moduleNames (c :: rest) = moduleNames [c] ++ moduleNames rest := by
      cases c <;> simp [moduleNames]
    rw [hstep, ih, ExecutedAddressManager.names_after, hnames, List.append_assoc]

theorem moduleNames_eq_nil (calls : List Call) (h : ∀ n, Call.setCurrentModule n ∉ calls) :
    moduleNames calls = [] := by
  rw [List.eq_nil_iff_forall_not_mem]
  intro n hn
  exact h n ((mem_moduleNames calls n).1 hn)

theorem deref_eq_some_iff (s : ExecutedAddressManager) (q : InstructionPtr) (i : Instruction) :
    s.deref q = some i ↔
      ∃ module file line, s.modules_[q.module]? = some module ∧
        mapFind module.files_ q.file = some file ∧ mapFind file.lines q.line = some line ∧
        line.instructions_[q.index]? = some i := by
  unfold ExecutedAddressManager.deref ExecutedAddressManager.lineAt ExecutedAddressManager.fileAt
    ExecutedAddressManager.moduleAt
  constructor
  · intro h
    cases hmodule : s.modules_[q.module]? with
    | none => simp [hmodule] at h
    | some module =>
      simp only [hmodule, Option.some_bind] at h
      cases hfile : mapFind module.files_ q.file with
      | none => simp [hfile] at h
      | some file =>
        simp only [hfile, Option.some_bind] at h
        cases hline : mapFind file.lines q.line with
        | none => simp [hline] at h
        | some line =>
          simp only [hline, Option.some_bind] at h
          exact ⟨module, file, line, rfl, hfile, hline, h⟩
  · rintro ⟨module, file, line, hmodule, hfile, hline, hi⟩
    simp [hmodule, hfile, hline, hi]

/-- A hit on an address whose registration returned: it returns the byte,
leaves the index and the outline of the report as they were, sets the flag of
the one node the address is bound to and touches no other node, so that the only
line whose executed value can change is the line of the registration, which is
executed afterwards. -/
theorem markAddressAsExecuted_frame (before later : List Call) (a : Nat) (f : String)
    (l b : Nat) (name : String)
    (hok : ((run before).RegisterAddress a f l b).1 = .ok ()) :
    0 < (moduleNames before).length ∧
      (((run (before ++ Call.registerAddress a f l b :: later)).CreateCoverageData
        name).executed ((moduleNames before).length - 1) f l).isSome = true ∧
      ((run (before ++ Call.registerAddress a f l b :: later)).MarkAddressAsExecuted a).1 =
        .ok b ∧
      ((run (before ++ Call.registerAddress a f l b :: later)).MarkAddressAsExecuted
        a).2.addressLineMap_ =
          (run (before ++ Call.registerAddress a f l b :: later)).addressLineMap_ ∧
      (((run (before ++ Call.registerAddress a f l b :: later)).MarkAddressAsExecuted
        a).2.CreateCoverageData name).outline =
          ((run (before ++ Call.registerAddress a f l b :: later)).CreateCoverageData
            name).outline ∧
      (((run (before ++ Call.registerAddress a f l b :: later)).MarkAddressAsExecuted
        a).2.CreateCoverageData name).executed ((moduleNames before).length - 1) f l =
          some true ∧
      (∀ (k : Nat) (f' : String) (l' : Nat),
        ¬ (k = (moduleNames before).length - 1 ∧ f' = f ∧ l' = l) →
          (((run (before ++ Call.registerAddress a f l b :: later)).MarkAddressAsExecuted
            a).2.CreateCoverageData name).executed k f' l' =
              ((run (before ++ Call.registerAddress a f l b :: later)).CreateCoverageData
                name).executed k f' l') ∧
      ∃ q : InstructionPtr,
        mapFind (run (before ++ Call.registerAddress a f l b :: later)).addressLineMap_ a =
          some (some q) ∧
        ((run (before ++ Call.registerAddress a f l b :: later)).MarkAddressAsExecuted
          a).2.deref q = some (Instruction.mk b true) ∧
        ∀ p, p ≠ q →
          ((run (before ++ Call.registerAddress a f l b :: later)).MarkAddressAsExecuted
            a).2.deref p = (run (before ++ Call.registerAddress a f l b :: later)).deref p := by
  obtain ⟨q, i, hqm, hqf, hql, hidx, hderef, hbyte, hmark⟩ :=
    bound_after_registration before later a f l b hok
  have hne := ((ExecutedAddressManager.RegisterAddress_ok_iff _ _ _ _ _).1 hok).1
  have hpos : 0 < (moduleNames before).length := by
    rw [← length_modules_run]
    exact List.length_pos.2 hne
  generalize run (before ++ Call.registerAddress a f l b :: later) = s at *
  rw [hmark]
  have hderef' := ExecutedAddressManager.deref_store s q q
    (fun i => { i with hasBeenExecuted_ := true })
  rw [if_pos rfl, hderef] at hderef'
  obtain ⟨line, hline⟩ := ExecutedAddressManager.lineAt_of_deref s q i hderef
  obtain ⟨line', hline'⟩ := ExecutedAddressManager.lineAt_of_deref _ q _ hderef'
  have hexec := ExecutedAddressManager.HasLineBeenExecuted_of_deref _ q line' _ hline' hderef' rfl
  rw [hqm, hqf, hql] at hline hline'
  refine ⟨hpos, ?_, rfl, rfl, ExecutedAddressManager.outline_store s name q _, ?_, ?_, q, hidx,
    ?_, ?_⟩
  · rw [ExecutedAddressManager.executed_CreateCoverageData, hline]
    rfl
  · rw [ExecutedAddressManager.executed_CreateCoverageData, hline']
    simp [hexec]
  · intro k f' l' hother
    rw [ExecutedAddressManager.executed_CreateCoverageData,
      ExecutedAddressManager.executed_CreateCoverageData, ExecutedAddressManager.lineAt_store,
      if_neg]
    rintro ⟨hk, hf, hl⟩
    exact hother ⟨hk.symm.trans hqm, hf.symm.trans hqf, hl.symm.trans hql⟩
  · rw [hderef']
    cases i
    simp only [Option.map_some', Option.some.injEq, Instruction.mk.injEq, and_true]
    exact hbyte
  · intro p hp
    rw [ExecutedAddressManager.deref_store, if_neg (Ne.symm hp)]

/-! ## Joining the export types -/

theorem append_ne_empty (a b : String) (h : a ≠ "") : a ++ b ≠ "" := by
  intro hab
  apply h
  have hdata := congrArg String.data hab
  simp only [String.data_append, List.append_eq_nil] at hdata
  exact String.ext hdata.1

theorem isEmpty_eq_false {a : String} (h : a ≠ "") : a.isEmpty = false := by
  cases hempty : a.isEmpty with
  | false => rfl
  | true => exact absurd ((String.isEmpty_iff a).1 hempty) h

/-- Once the accumulated string is not empty, the loop puts the separator before
every further name. -/
theorem loop_of_ne_empty (acc : String) (names : List String) (h : acc ≠ "") :
    GetExportTypesAsString.loop acc names = String.intercalate.go acc ", " names := by
  induction names generalizing acc with
  | nil => rfl
  | cons name rest ih =>
    have hstep : GetExportTypesAsString.loop acc (name :: rest) =
        GetExportTypesAsString.loop (acc ++ ", " ++ name) rest := by
      simp [GetExportTypesAsString.loop, isEmpty_eq_false h]
    rw [hstep, ih _ (append_ne_empty _ _ (append_ne_empty _ _ h))]
    rfl

/-- Whatever the names, the result is the join of the names that remain when
the leading empty names are dropped. -/
theorem GetExportTypesAsString_eq (names : List String) :
    GetExportTypesAsString names = ", ".intercalate (names.dropWhile (fun name => name = "")) := by
  unfold GetExportTypesAsString
  induction names with
  | nil => rfl
  | cons name rest ih =>
    have hstep : GetExportTypesAsString.loop "" (name :: rest) =
        GetExportTypesAsString.loop name rest := by
      have hempty : "".isEmpty = true := rfl
      simp [GetExportTypesAsString.loop, hempty]
    rw [hstep]
    by_cases hname : name = ""
    · subst hname
      rw [ih]
      simp [List.dropWhile]
    · rw [loop_of_ne_empty name rest hname]
      simp [List.dropWhile, hname, String.intercalate]

theorem joinWith_cons_append (separator acc name : String) (rest : List String) :
    joinWith separator ((acc ++ separator ++ name) :: rest) =
      acc ++ separator ++ joinWith separator (name :: rest) := by
  cases rest with
  | nil => rfl
  | cons next rest => simp only [joinWith, String.append_assoc]

theorem intercalate_go_eq_joinWith (separator acc : String) (names : List String) :
    String.intercalate.go acc separator names = joinWith separator (acc :: names) := by
  induction names generalizing acc with
  | nil => rfl
  | cons name rest ih =>
    have hstep : String.intercalate.go acc separator (name :: rest) =
        String.intercalate.go (acc ++ separator ++ name) separator rest := rfl
    rw [hstep, ih, joinWith_cons_append]
    rfl

theorem intercalate_eq_joinWith (separator : String) (names : List String) :
    separator.intercalate names = joinWith separator names := by
  cases names with
  | nil => rfl
  | cons name rest => exact intercalate_go_eq_joinWith separator name rest

/-! ## The claims -/

/-- Claim C1. After any sequence of calls of which at least one is
`SetCurrentModule`, `RegisterAddress` throws "Address already register" exactly
when the address was passed to an earlier `RegisterAddress` call that returned,
whatever the other arguments of the two calls and whatever module was current;
otherwise it returns and the address is a key of the index afterwards. -/
theorem C1_registerAddress_duplicate_iff (calls : List Call) (moduleName : String)
    (hcurrent : Call.setCurrentModule moduleName ∈ calls)
    (address : Nat) (filename : String) (lineNumber instructionValue : Nat) :
    (((run calls).RegisterAddress address filename lineNumber instructionValue).1 =
        .error .addressAlreadyRegister ↔ RegisteredOk calls address) ∧
      (¬ RegisteredOk calls address →
        ((run calls).RegisterAddress address filename lineNumber instructionValue).1 = .ok () ∧
          address ∈
            ((run calls).RegisterAddress address filename lineNumber
              instructionValue).2.addressLineMap_.map Prod.fst) := by
  have hne := modules_run_ne_nil calls moduleName hcurrent
  refine ⟨?_, ?_⟩
  · rw [ExecutedAddressManager.RegisterAddress_duplicate_iff, ← mapFind_run_ne_none_iff]
    simp [hne]
  · intro hnot
    have hnone : mapFind (run calls).addressLineMap_ address = none := by
      by_contra h
      exact hnot ((mapFind_run_ne_none_iff calls address).1 h)
    have hok := (ExecutedAddressManager.RegisterAddress_ok_iff (run calls) address filename
      lineNumber instructionValue).2 ⟨hne, hnone⟩
    refine ⟨hok, ?_⟩
    rw [← mapFind_isSome_iff, ExecutedAddressManager.mapFind_RegisterAddress]
    simp [hne, hnone]

/-- The hypothesis of claim C1 is met, and its conclusion holds, after
`SetCurrentModule("m")` and `RegisterAddress(0x2000, "a.cpp", 1, 0x90)`, for a
second registration of `0x2000`. -/
theorem C1_registerAddress_duplicate_iff_witness :
    Call.setCurrentModule "m" ∈
        [Call.setCurrentModule "m", Call.registerAddress 0x2000 "a.cpp" 1 0x90] ∧
      ((((run [Call.setCurrentModule "m",
            Call.registerAddress 0x2000 "a.cpp" 1 0x90]).RegisterAddress 0x2000 "a.cpp" 5 0x90).1 =
          .error .addressAlreadyRegister ↔
          RegisteredOk [Call.setCurrentModule "m", Call.registerAddress 0x2000 "a.cpp" 1 0x90]
            0x2000) ∧
        (¬ RegisteredOk [Call.setCurrentModule "m", Call.registerAddress 0x2000 "a.cpp" 1 0x90]
            0x2000 →
          ((run [Call.setCurrentModule "m",
            Call.registerAddress 0x2000 "a.cpp" 1 0x90]).RegisterAddress 0x2000 "a.cpp" 5 0x90).1 =
              .ok () ∧
            0x2000 ∈
              ((run [Call.setCurrentModule "m",
                Call.registerAddress 0x2000 "a.cpp" 1 0x90]).RegisterAddress 0x2000 "a.cpp" 5
                  0x90).2.addressLineMap_.map Prod.fst)) :=
  ⟨by decide,
    C1_registerAddress_duplicate_iff
      [Call.setCurrentModule "m", Call.registerAddress 0x2000 "a.cpp" 1 0x90] "m" (by decide)
      0x2000 "a.cpp" 5 0x90⟩

/-- Claim C3. On a manager on which `SetCurrentModule` was never called,
`RegisterAddress` throws "Not current module set" for every address, file name,
line number and byte, and leaves the state as it was: no module and no index
entry. -/
theorem C3_registerAddress_without_module (calls : List Call)
    (hnever : ∀ moduleName, Call.setCurrentModule moduleName ∉ calls)
    (address : Nat) (filename : String) (lineNumber instructionValue : Nat) :
    (run calls).RegisterAddress address filename lineNumber instructionValue =
        (.error .notCurrentModuleSet, run calls) ∧
      (run calls).modules_ = [] ∧ (run calls).addressLineMap_ = [] := by
  rw [run_eq_new calls hnever]
  exact ⟨ExecutedAddressManager.RegisterAddress_of_empty _ _ _ _ _ rfl, rfl, rfl⟩

/-- Claim C3 at a concrete sequence without `SetCurrentModule`: after a
`MarkAddressAsExecuted(1)` and a `RegisterAddress(1, "a.cpp", 1, 0x90)`, which
both throw, `RegisterAddress(0x2000, "a.cpp", 5, 0x90)` throws and changes
nothing. -/
theorem C3_registerAddress_without_module_witness :
    (∀ moduleName, Call.setCurrentModule moduleName ∉
        [Call.markAddressAsExecuted 1, Call.registerAddress 1 "a.cpp" 1 0x90]) ∧
      ((run [Call.markAddressAsExecuted 1,
          Call.registerAddress 1 "a.cpp" 1 0x90]).RegisterAddress 0x2000 "a.cpp" 5 0x90 =
          (.error .notCurrentModuleSet,
            run [Call.markAddressAsExecuted 1, Call.registerAddress 1 "a.cpp" 1 0x90]) ∧
        (run [Call.markAddressAsExecuted 1,
          Call.registerAddress 1 "a.cpp" 1 0x90]).modules_ = [] ∧
        (run [Call.markAddressAsExecuted 1,
          Call.registerAddress 1 "a.cpp" 1 0x90]).addressLineMap_ = []) :=
  ⟨by simp,
    C3_registerAddress_without_module
      [Call.markAddressAsExecuted 1, Call.registerAddress 1 "a.cpp" 1 0x90] (by simp)
      0x2000 "a.cpp" 5 0x90⟩

/-- Claim C4. After any sequence of calls, `MarkAddressAsExecuted` throws
"Address should be register first" exactly when the address was never passed to
a `RegisterAddress` call that returned; and whenever it throws, the state is
the one before the call. -/
theorem C4_markAddressAsExecuted_unknown_iff (calls : List Call) (address : Nat) :
    (((run calls).MarkAddressAsExecuted address).1 = .error .addressShouldBeRegisterFirst ↔
        ¬ RegisteredOk calls address) ∧
      ∀ e, ((run calls).MarkAddressAsExecuted address).1 = .error e →
        ((run calls).MarkAddressAsExecuted address).2 = run calls := by
  refine ⟨?_, fun e he => ExecutedAddressManager.MarkAddressAsExecuted_error _ _ e he⟩
  rw [ExecutedAddressManager.MarkAddressAsExecuted_unknown_iff, ← mapFind_run_ne_none_iff]
  simp

/-- Claim C5. If `RegisterAddress(a, f, l, b)` returned, then after any further
calls whatsoever (in particular after further calls that all return and add
modules, files, lines and instructions, also on the same line),
`MarkAddressAsExecuted(a)` returns exactly `b`, and the report made afterwards
has, at the position of the module that was current at the registration and
under its name, a file entry `f` with the line entry `(l, true)` and no file
entry `f` with the line entry `(l, false)`. -/
theorem C5_index_references_stay_valid (before later : List Call) (address : Nat)
    (filename : String) (lineNumber instructionValue : Nat) (name : String)
    (hregistered :
      ((run before).RegisterAddress address filename lineNumber instructionValue).1 = .ok ()) :
    ((run (before ++ Call.registerAddress address filename lineNumber instructionValue ::
        later)).MarkAddressAsExecuted address).1 = .ok instructionValue ∧
      ∃ (k : Nat) (mc : ModuleCoverage),
        (moduleNames before).length = k + 1 ∧
        (((run (before ++ Call.registerAddress address filename lineNumber instructionValue ::
          later)).MarkAddressAsExecuted address).2.CreateCoverageData name).modules[k]? =
            some mc ∧
        (moduleNames before)[k]? = some mc.name ∧
        (∃ fc ∈ mc.files, fc.path = filename ∧ (lineNumber, true) ∈ fc.lines) ∧
        ∀ fc ∈ mc.files, fc.path = filename → (lineNumber, false) ∉ fc.lines := by
  have hwf0 := wellFormed_run before
  obtain ⟨q, hqm, hqf, hql, hidx1, hderef1, -, -⟩ :=
    registered_node (run before) address filename lineNumber instructionValue hwf0 hregistered
  have hne := ((ExecutedAddressManager.RegisterAddress_ok_iff _ _ _ _ _).1 hregistered).1
  have hrun : run (before ++ Call.registerAddress address filename lineNumber instructionValue ::
      later) =
      ((run before).RegisterAddress address filename lineNumber instructionValue).2.afterAll
        later := by
    rw [run_append]
    rfl
  have hwf1 := ExecutedAddressManager.wellFormed_RegisterAddress (run before) address filename
    lineNumber instructionValue hwf0
  have hgrow := ExecutedAddressManager.growsTo_afterAll _ later hwf1
  rw [← hrun] at hgrow
  have hidx2 := hgrow.2.1 _ _ hidx1
  obtain ⟨i2, hderef2, hbyte, -⟩ := hgrow.2.2 _ _ hderef1
  obtain ⟨i, hi, hmark⟩ := ExecutedAddressManager.MarkAddressAsExecuted_of_mapFind _ address q
    (indexValid_run _) hidx2
  rw [hderef2] at hi
  cases hi
  rw [hmark]
  refine ⟨by simpa using hbyte, ?_⟩
  have hwf3 := ExecutedAddressManager.wellFormed_store _ q
    (fun i => { i with hasBeenExecuted_ := true }) (wellFormed_run
      (before ++ Call.registerAddress address filename lineNumber instructionValue :: later))
  have hderef3 := ExecutedAddressManager.deref_store
    (run (before ++ Call.registerAddress address filename lineNumber instructionValue :: later))
    q q (fun i => { i with hasBeenExecuted_ := true })
  rw [if_pos rfl, hderef2] at hderef3
  obtain ⟨line, hline⟩ := ExecutedAddressManager.lineAt_of_deref _ q _ hderef3
  have hexec := ExecutedAddressManager.HasLineBeenExecuted_of_deref _ q line _ hline hderef3 rfl
  rw [hqm, hqf, hql] at hline
  obtain ⟨mc, hmc, hname, fc, hfc, hpath, hentry⟩ :=
    ExecutedAddressManager.entry_of_lineAt _ name _ _ _ line hline
  rw [hexec] at hentry
  have hlen := length_modules_run before
  have hpos : 0 < (run before).modules_.length := List.length_pos.2 hne
  refine ⟨(run before).modules_.length - 1, mc, by omega, hmc, ?_, ⟨fc, hfc, hpath, hentry⟩, ?_⟩
  · rw [ExecutedAddressManager.names_store, names_run, moduleNames_append,
      List.getElem?_append_left (by omega)] at hname
    exact hname
  · intro fc' hfc' hpath' hfalse
    obtain ⟨line', hline', hfalse'⟩ :=
      ExecutedAddressManager.lineAt_of_entry _ name _ mc fc' lineNumber false hwf3 hmc hfc' hfalse
    rw [hpath', hline] at hline'
    cases hline'
    rw [hexec] at hfalse'
    cases hfalse'

/-- Claim C5 at a concrete sequence: `0x1004` is registered on line 20 of
"main.cpp" in "app.dll", then another instruction is put on the same line and a
second module is announced with a file of its own. -/
theorem C5_index_references_stay_valid_witness :
    ((run [Call.setCurrentModule "app.dll"]).RegisterAddress 0x1004 "main.cpp" 20 0x90).1 =
        .ok () ∧
      (((run ([Call.setCurrentModule "app.dll"] ++
          Call.registerAddress 0x1004 "main.cpp" 20 0x90 ::
            [Call.registerAddress 0x1008 "main.cpp" 20 0xCC, Call.setCurrentModule "b.dll",
              Call.registerAddress 0x3000 "b.cpp" 7 0x55])).MarkAddressAsExecuted 0x1004).1 =
          .ok 0x90 ∧
        ∃ (k : Nat) (mc : ModuleCoverage),
          (moduleNames [Call.setCurrentModule "app.dll"]).length = k + 1 ∧
          (((run ([Call.setCurrentModule "app.dll"] ++
            Call.registerAddress 0x1004 "main.cpp" 20 0x90 ::
              [Call.registerAddress 0x1008 "main.cpp" 20 0xCC, Call.setCurrentModule "b.dll",
                Call.registerAddress 0x3000 "b.cpp" 7 0x55])).MarkAddressAsExecuted
                  0x1004).2.CreateCoverageData "report").modules[k]? = some mc ∧
          (moduleNames [Call.setCurrentModule "app.dll"])[k]? = some mc.name ∧
          (∃ fc ∈ mc.files, fc.path = "main.cpp" ∧ (20, true) ∈ fc.lines) ∧
          ∀ fc ∈ mc.files, fc.path = "main.cpp" → (20, false) ∉ fc.lines) :=
  ⟨rfl,
    C5_index_references_stay_valid [Call.setCurrentModule "app.dll"]
      [Call.registerAddress 0x1008 "main.cpp" 20 0xCC, Call.setCurrentModule "b.dll",
        Call.registerAddress 0x3000 "b.cpp" 7 0x55]
      0x1004 "main.cpp" 20 0x90 "report" rfl⟩

/-- Claim C6. For every reachable state and every registered address,
`MarkAddressAsExecuted` called twice in a row returns the same byte both times,
the state after the second call is the state after the first, and in it the
instruction the address is bound to has its flag set. -/
theorem C6_markAddressAsExecuted_idempotent (calls : List Call) (address : Nat)
    (hregistered : RegisteredOk calls address) :
    ∃ byte : Nat,
      ((run calls).MarkAddressAsExecuted address).1 = .ok byte ∧
      ((run calls).MarkAddressAsExecuted address).2.MarkAddressAsExecuted address =
        (.ok byte, ((run calls).MarkAddressAsExecuted address).2) ∧
      ∃ q, mapFind (run calls).addressLineMap_ address = some (some q) ∧
        ((run calls).MarkAddressAsExecuted address).2.deref q =
          some (Instruction.mk byte true) := by
  have hfind := (mapFind_run_ne_none_iff calls address).2 hregistered
  obtain ⟨p, hp⟩ := Option.ne_none_iff_exists'.1 hfind
  obtain ⟨q, hq, -⟩ := indexValid_run calls address p hp
  subst hq
  obtain ⟨i, hi, hmark⟩ := ExecutedAddressManager.MarkAddressAsExecuted_of_mapFind _ address q
    (indexValid_run calls) hp
  have hderef := ExecutedAddressManager.deref_store (run calls) q q
    (fun i => { i with hasBeenExecuted_ := true })
  rw [if_pos rfl, hi] at hderef
  rw [hmark]
  refine ⟨i.instruction_, rfl, ?_, q, hp, hderef⟩
  rw [ExecutedAddressManager.MarkAddressAsExecuted_eq]
  simp only [ExecutedAddressManager.addressLineMap_store, hp, hderef, Option.map_some']
  rw [ExecutedAddressManager.store_store _ _ (fun i => { i with hasBeenExecuted_ := true })
    (fun _ => rfl)]

/-- Claim C6 at a concrete state: `0x1004` registered in "app.dll" and marked
twice. -/
theorem C6_markAddressAsExecuted_idempotent_witness :
    RegisteredOk
        [Call.setCurrentModule "app.dll", Call.registerAddress 0x1004 "main.cpp" 20 0x90]
        0x1004 ∧
      ∃ byte : Nat,
        ((run [Call.setCurrentModule "app.dll",
          Call.registerAddress 0x1004 "main.cpp" 20 0x90]).MarkAddressAsExecuted 0x1004).1 =
            .ok byte ∧
        ((run [Call.setCurrentModule "app.dll",
          Call.registerAddress 0x1004 "main.cpp" 20 0x90]).MarkAddressAsExecuted
            0x1004).2.MarkAddressAsExecuted 0x1004 =
          (.ok byte,
            ((run [Call.setCurrentModule "app.dll",
              Call.registerAddress 0x1004 "main.cpp" 20 0x90]).MarkAddressAsExecuted 0x1004).2) ∧
        ∃ q,
          mapFind (run [Call.setCurrentModule "app.dll",
            Call.registerAddress 0x1004 "main.cpp" 20 0x90]).addressLineMap_ 0x1004 =
              some (some q) ∧
          ((run [Call.setCurrentModule "app.dll",
            Call.registerAddress 0x1004 "main.cpp" 20 0x90]).MarkAddressAsExecuted
              0x1004).2.deref q = some (Instruction.mk byte true) :=
  ⟨⟨[Call.setCurrentModule "app.dll"], "main.cpp", 20, 0x90, [], rfl, rfl⟩,
    C6_markAddressAsExecuted_idempotent
      [Call.setCurrentModule "app.dll", Call.registerAddress 0x1004 "main.cpp" 20 0x90] 0x1004
      ⟨[Call.setCurrentModule "app.dll"], "main.cpp", 20, 0x90, [], rfl, rfl⟩⟩

/-- Claim C7. For every line, whatever the flags of its instructions,
`HasLineBeenExecuted` returns true exactly when at least one instruction of the
line has `hasBeenExecuted_` set; in particular it returns false when none
has. -/
theorem C7_hasLineBeenExecuted_iff (line : Line) :
    (line.HasLineBeenExecuted = true ↔
        ∃ instruction ∈ line.instructions_, instruction.hasBeenExecuted_ = true) ∧
      ((∀ instruction ∈ line.instructions_, instruction.hasBeenExecuted_ = false) →
        line.HasLineBeenExecuted = false) := by
  have hiff := HasLineBeenExecuted_loop_iff line.instructions_
  refine ⟨hiff, ?_⟩
  intro hall
  cases h : line.HasLineBeenExecuted with
  | false => rfl
  | true =>
    obtain ⟨i, hi, hexec⟩ := hiff.1 h
    rw [hall i hi] at hexec
    cases hexec

/-- Claim C8. After any sequence of calls that all return, the report has
exactly one module entry per `SetCurrentModule` call, in call order and under
the name passed; the module entry at position `k` has exactly one file entry
per file name registered while the module at position `k` was current; each
file entry has exactly one line entry per line number registered for that file
in that module; and a line entry is marked executed exactly when some address
registered on that line of that file in that module was later passed to
`MarkAddressAsExecuted`. -/
theorem C8_snapshot_reflects_calls (calls : List Call) (name : String)
    (hall : AllSucceed calls) :
    ((run calls).CreateCoverageData name).modules.map ModuleCoverage.name = moduleNames calls ∧
      ∀ (k : Nat) (mc : ModuleCoverage),
        ((run calls).CreateCoverageData name).modules[k]? = some mc →
          (mc.files.map FileCoverage.path).Nodup ∧
          (∀ f, f ∈ mc.files.map FileCoverage.path ↔ ∃ l a, RegisteredOn calls k f l a) ∧
          ∀ fc ∈ mc.files,
            (fc.lines.map Prod.fst).Nodup ∧
            (∀ l, l ∈ fc.lines.map Prod.fst ↔ ∃ a, RegisteredOn calls k fc.path l a) ∧
            ∀ l e, (l, e) ∈ fc.lines → (e = true ↔ ∃ a, HitOn calls k fc.path l a) := by
  have hrec := recorded_run calls hall
  have hwf := wellFormed_run calls
  refine ⟨by rw [ExecutedAddressManager.names_CreateCoverageData, names_run], ?_⟩
  intro k mc hmc
  obtain ⟨hnodup, hfiles, hlines⟩ := entries_of_getElem? (run calls) name k mc hwf hmc
  refine ⟨hnodup, fun f => (hfiles f).trans (hrec.file_iff k f), ?_⟩
  intro fc hfc
  refine ⟨nodup_of_sorted (hlines fc hfc).1,
    fun l => ((hlines fc hfc).2 l).trans (hrec.line_iff k fc.path l), ?_⟩
  intro l e hle
  obtain ⟨line, hline, rfl⟩ :=
    ExecutedAddressManager.lineAt_of_entry (run calls) name k mc fc l e hwf hmc hfc hle
  exact hasLineBeenExecuted_iff_hitOn calls (run calls) hrec (indexValid_run calls) k fc.path l
    line hline

/-- Claim C8 at the end-to-end scenario followed by its hit: all five calls
return, so the report is as the claim says. -/
theorem C8_snapshot_reflects_calls_witness :
    AllSucceed (scenarioCalls ++ [Call.markAddressAsExecuted 0x1004]) ∧
      (((run (scenarioCalls ++ [Call.markAddressAsExecuted 0x1004])).CreateCoverageData
          "report").modules.map ModuleCoverage.name =
          moduleNames (scenarioCalls ++ [Call.markAddressAsExecuted 0x1004]) ∧
        ∀ (k : Nat) (mc : ModuleCoverage),
          ((run (scenarioCalls ++ [Call.markAddressAsExecuted 0x1004])).CreateCoverageData
            "report").modules[k]? = some mc →
            (mc.files.map FileCoverage.path).Nodup ∧
            (∀ f, f ∈ mc.files.map FileCoverage.path ↔
              ∃ l a, RegisteredOn (scenarioCalls ++ [Call.markAddressAsExecuted 0x1004]) k f l a) ∧
            ∀ fc ∈ mc.files,
              (fc.lines.map Prod.fst).Nodup ∧
              (∀ l, l ∈ fc.lines.map Prod.fst ↔
                ∃ a, RegisteredOn (scenarioCalls ++ [Call.markAddressAsExecuted 0x1004]) k
                  fc.path l a) ∧
              ∀ l e, (l, e) ∈ fc.lines →
                (e = true ↔
                  ∃ a, HitOn (scenarioCalls ++ [Call.markAddressAsExecuted 0x1004]) k
                    fc.path l a)) :=
  ⟨rfl,
    C8_snapshot_reflects_calls (scenarioCalls ++ [Call.markAddressAsExecuted 0x1004]) "report"
      rfl⟩

/-- Claim C9. After any sequence of calls, returning or throwing, the module
entries of the report carry the names passed to `SetCurrentModule` in call
order, and the line entries of every file entry are in strictly ascending order
of line number, so that no line number occurs twice in a file entry. -/
theorem C9_snapshot_order (calls : List Call) (name : String) :
    ((run calls).CreateCoverageData name).modules.map ModuleCoverage.name = moduleNames calls ∧
      ∀ mc ∈ ((run calls).CreateCoverageData name).modules, ∀ fc ∈ mc.files,
        (fc.lines.map Prod.fst).Pairwise (· < ·) ∧ (fc.lines.map Prod.fst).Nodup := by
  refine ⟨by rw [ExecutedAddressManager.names_CreateCoverageData, names_run], ?_⟩
  intro mc hmc fc hfc
  obtain ⟨k, hk⟩ := List.getElem?_of_mem hmc
  have hsorted := ((entries_of_getElem? (run calls) name k mc (wellFormed_run calls) hk).2.2
    fc hfc).1
  exact ⟨hsorted, nodup_of_sorted hsorted⟩

/-- Claim C10. The end-to-end scenario: all five calls return, the hit on
`0x1004` returns the byte `0x90`, and the report then has the single module
"app.dll" with the single file "main.cpp" whose line entries are `(10, false)`
and `(20, true)`; one of the two registered lines is executed, a rate of 50
percent. -/
theorem C10_end_to_end_scenario (name : String) :
    AllSucceed (scenarioCalls ++ [Call.markAddressAsExecuted 0x1004]) ∧
      ((run scenarioCalls).MarkAddressAsExecuted 0x1004).1 = .ok 0x90 ∧
      ((run scenarioCalls).MarkAddressAsExecuted 0x1004).2.CreateCoverageData name =
        { name := name,
          modules :=
            [{ name := "app.dll",
               files := [{ path := "main.cpp", lines := [(10, false), (20, true)] }] }] } ∧
      ModuleCoverage.ComputeCoverageRate
          { name := "app.dll",
            files := [{ path := "main.cpp", lines := [(10, false), (20, true)] }] } = (1, 2) ∧
      100 * 1 / 2 = 50 :=
  ⟨rfl, rfl, rfl, rfl, rfl⟩

/-- Claim C2, evaluated on the code. After `SetCurrentModule("m")` and
`RegisterAddress(0x2000, "a.cpp", 1, 0x90)`, the call
`RegisterAddress(0x2000, "a.cpp", 5, 0x90)` throws "Address already register",
but only after it has created line 5 of "a.cpp" and appended an instruction to
it: the line was absent before the call and is present after it, and the report
gains the entry `(5, false)`. -/
theorem C2_failed_registerAddress_mutates_line :
    ((run [Call.setCurrentModule "m",
        Call.registerAddress 0x2000 "a.cpp" 1 0x90]).RegisterAddress 0x2000 "a.cpp" 5 0x90).1 =
        .error .addressAlreadyRegister ∧
      (run [Call.setCurrentModule "m",
        Call.registerAddress 0x2000 "a.cpp" 1 0x90]).lineAt 0 "a.cpp" 5 = none ∧
      ((run [Call.setCurrentModule "m",
        Call.registerAddress 0x2000 "a.cpp" 1 0x90]).RegisterAddress 0x2000 "a.cpp" 5
          0x90).2.lineAt 0 "a.cpp" 5 =
        some { instructions_ := [{ instruction_ := 0x90, hasBeenExecuted_ := false }] } ∧
      (run [Call.setCurrentModule "m",
        Call.registerAddress 0x2000 "a.cpp" 1 0x90]).CreateCoverageData "report" =
        { name := "report",
          modules := [{ name := "m", files := [{ path := "a.cpp", lines := [(1, false)] }] }] } ∧
      ((run [Call.setCurrentModule "m",
        Call.registerAddress 0x2000 "a.cpp" 1 0x90]).RegisterAddress 0x2000 "a.cpp" 5
          0x90).2.CreateCoverageData "report" =
        { name := "report",
          modules :=
            [{ name := "m",
               files := [{ path := "a.cpp", lines := [(1, false), (5, false)] }] }] } :=
  ⟨rfl, rfl, rfl, rfl, rfl⟩

/-- Claim C16 as stated fails. For the names "" and "html" the code returns
"html", because the separator is added only once the accumulated string is not
empty, while the two names joined by ", " are ", html". -/
theorem C16_join_counterexample :
    GetExportTypesAsString ["", "html"] = "html" ∧
      joinWith ", " ["", "html"] = ", html" ∧
      GetExportTypesAsString ["", "html"] ≠ joinWith ", " ["", "html"] := by
  decide

/-- Claim C16, amended. For every list of export-type names whose first name is
not empty, `GetExportTypesAsString` returns the names joined by ", " in list
order, and `GetExportTypeText` returns "The export type. Possible values are: "
followed by that joined string followed by ". Can have multiple occurrences.";
the empty list gives the empty string and a one-element list gives its name. -/
theorem C16_export_type_strings (names : List String)
    (hfirst : ∀ name, names.head? = some name → name ≠ "") :
    GetExportTypesAsString names = joinWith ", " names ∧
      GetExportTypeText names =
        "The export type. Possible values are: " ++ joinWith ", " names ++
          ". Can have multiple occurrences." ∧
      GetExportTypesAsString [] = "" ∧
      ∀ name, GetExportTypesAsString [name] = name := by
  have hjoin : GetExportTypesAsString names = joinWith ", " names := by
    rw [GetExportTypesAsString_eq, intercalate_eq_joinWith]
    cases names with
    | nil => rfl
    | cons name rest =>
      have hname : name ≠ "" := hfirst name rfl
      simp [List.dropWhile, hname]
  refine ⟨hjoin, by rw [GetExportTypeText, hjoin], rfl, ?_⟩
  intro name
  rw [GetExportTypesAsString_eq, intercalate_eq_joinWith]
  by_cases hname : name = ""
  · subst hname
    rfl
  · simp [List.dropWhile, hname, joinWith]

/-- Claim C16, amended, at the names "html", "cobertura" and "binary". -/
theorem C16_export_type_strings_witness :
    (∀ name, ["html", "cobertura", "binary"].head? = some name → name ≠ "") ∧
      (GetExportTypesAsString ["html", "cobertura", "binary"] =
          joinWith ", " ["html", "cobertura", "binary"] ∧
        GetExportTypeText ["html", "cobertura", "binary"] =
          "The export type. Possible values are: " ++
            joinWith ", " ["html", "cobertura", "binary"] ++
            ". Can have multiple occurrences." ∧
        GetExportTypesAsString [] = "" ∧
        ∀ name, GetExportTypesAsString [name] = name) :=
  ⟨by simp, C16_export_type_strings ["html", "cobertura", "binary"] (by simp)⟩

/-- Claim C11. `SetCurrentModule` has no throw site; for every state and every
name it appends one module with that name and no files at the end of `modules_`
and leaves the earlier modules and the index as they were. A `RegisterAddress`
call that returns after it and before the next `SetCurrentModule` leaves the
number of modules and every earlier module as they were, and puts its
instruction at the end of the line of the file of that last module, to which the
address is then bound. -/
theorem C11_setCurrentModule_appends (before more : List Call) (moduleName : String)
    (hmore : ∀ n, Call.setCurrentModule n ∉ more)
    (address : Nat) (filename : String) (lineNumber instructionValue : Nat)
    (hok : ((run (before ++ Call.setCurrentModule moduleName :: more)).RegisterAddress address
      filename lineNumber instructionValue).1 = .ok ()) :
    (∀ (s : ExecutedAddressManager) (n : String),
        s.succeeds (Call.setCurrentModule n) = true ∧
        (s.SetCurrentModule n).modules_ = s.modules_ ++ [Module.mk n []] ∧
        (s.SetCurrentModule n).addressLineMap_ = s.addressLineMap_) ∧
      ((run (before ++ Call.setCurrentModule moduleName :: more)).RegisterAddress address
        filename lineNumber instructionValue).2.modules_.length =
          (run before).modules_.length + 1 ∧
      (∀ k, k < (run before).modules_.length →
        ((run (before ++ Call.setCurrentModule moduleName :: more)).RegisterAddress address
          filename lineNumber instructionValue).2.modules_[k]? =
            (run (before ++ Call.setCurrentModule moduleName :: more)).modules_[k]?) ∧
      (((run (before ++ Call.setCurrentModule moduleName :: more)).RegisterAddress address
        filename lineNumber instructionValue).2.modules_.map Module.name_)[
          (run before).modules_.length]? = some moduleName ∧
      ((run (before ++ Call.setCurrentModule moduleName :: more)).RegisterAddress address
        filename lineNumber instructionValue).2.lineAt (run before).modules_.length filename
          lineNumber =
        some (Line.mk
          ((run (before ++ Call.setCurrentModule moduleName :: more)).instructionsAt
            (run before).modules_.length filename lineNumber ++
              [Instruction.mk instructionValue false])) ∧
      ∃ q : InstructionPtr,
        mapFind ((run (before ++ Call.setCurrentModule moduleName :: more)).RegisterAddress
          address filename lineNumber instructionValue).2.addressLineMap_ address =
            some (some q) ∧
        q.module = (run before).modules_.length ∧ q.file = filename ∧ q.line = lineNumber := by
  have hnames : (run (before ++ Call.setCurrentModule moduleName :: more)).modules_.map
      Module.name_ = (run before).modules_.map Module.name_ ++ [moduleName] := by
    rw [names_run, names_run, moduleNames_append]
    have hcons : moduleNames (Call.setCurrentModule moduleName :: more) =
        moduleName :: moduleNames more := rfl
    rw [hcons, moduleNames_eq_nil more hmore]
  have hlen : (run (before ++ Call.setCurrentModule moduleName :: more)).modules_.length =
      (run before).modules_.length + 1 := by
    simpa using congrArg List.length hnames
  have hne : (run (before ++ Call.setCurrentModule moduleName :: more)).modules_ ≠ [] := by
    intro hnil
    rw [hnil] at hlen
    simp at hlen
  have hwf := wellFormed_run (before ++ Call.setCurrentModule moduleName :: more)
  have hcur : (run (before ++ Call.setCurrentModule moduleName :: more)).modules_.length - 1 =
      (run before).modules_.length := by omega
  have hnames' := ExecutedAddressManager.names_RegisterAddress
    (run (before ++ Call.setCurrentModule moduleName :: more)) address filename lineNumber
    instructionValue
  refine ⟨fun s n => ⟨rfl, rfl, rfl⟩, ?_, ?_, ?_, ?_, ?_⟩
  · rw [ExecutedAddressManager.length_of_names hnames', hlen]
  · intro k hk
    rw [ExecutedAddressManager.modules_RegisterAddress _ _ _ _ _ hne,
      ExecutedAddressManager.getElem?_modules_pushBackInstruction _ _ _ _ _ k (by omega)]
  · rw [hnames', hnames]
    simp
  · rw [ExecutedAddressManager.lineAt_RegisterAddress _ _ _ _ _ _ _ _ hwf hne,
      if_pos ⟨hcur, rfl, rfl⟩]
  · obtain ⟨q, hqm, hqf, hql, hq, -, -, -⟩ :=
      registered_node _ address filename lineNumber instructionValue hwf hok
    exact ⟨q, hq, hqm.trans hcur, hqf, hql⟩

/-- Claim C11 at a concrete sequence: "a.dll" with one line, then "b.dll"
announced, a hit and a throwing registration in between, and a registration
that returns. -/
theorem C11_setCurrentModule_appends_witness :
    (∀ n, Call.setCurrentModule n ∉
        [Call.markAddressAsExecuted 0x1000, Call.registerAddress 0x1000 "x.cpp" 3 0x90]) ∧
      ((∀ (s : ExecutedAddressManager) (n : String),
          s.succeeds (Call.setCurrentModule n) = true ∧
          (s.SetCurrentModule n).modules_ = s.modules_ ++ [Module.mk n []] ∧
          (s.SetCurrentModule n).addressLineMap_ = s.addressLineMap_) ∧
        ((run ([Call.setCurrentModule "a.dll", Call.registerAddress 0x1000 "a.cpp" 1 0x90] ++
            Call.setCurrentModule "b.dll" ::
              [Call.markAddressAsExecuted 0x1000,
                Call.registerAddress 0x1000 "x.cpp" 3 0x90])).RegisterAddress 0x2000 "b.cpp" 7
            0x55).2.modules_.length =
          (run [Call.setCurrentModule "a.dll",
            Call.registerAddress 0x1000 "a.cpp" 1 0x90]).modules_.length + 1 ∧
        (∀ k, k < (run [Call.setCurrentModule "a.dll",
            Call.registerAddress 0x1000 "a.cpp" 1 0x90]).modules_.length →
          ((run ([Call.setCurrentModule "a.dll", Call.registerAddress 0x1000 "a.cpp" 1 0x90] ++
            Call.setCurrentModule "b.dll" ::
              [Call.markAddressAsExecuted 0x1000,
                Call.registerAddress 0x1000 "x.cpp" 3 0x90])).RegisterAddress 0x2000 "b.cpp" 7
            0x55).2.modules_[k]? =
            (run ([Call.setCurrentModule "a.dll", Call.registerAddress 0x1000 "a.cpp" 1 0x90] ++
              Call.setCurrentModule "b.dll" ::
                [Call.markAddressAsExecuted 0x1000,
                  Call.registerAddress 0x1000 "x.cpp" 3 0x90])).modules_[k]?) ∧
        (((run ([Call.setCurrentModule "a.dll", Call.registerAddress 0x1000 "a.cpp" 1 0x90] ++
            Call.setCurrentModule "b.dll" ::
              [Call.markAddressAsExecuted 0x1000,
                Call.registerAddress 0x1000 "x.cpp" 3 0x90])).RegisterAddress 0x2000 "b.cpp" 7
            0x55).2.modules_.map Module.name_)[
              (run [Call.setCurrentModule "a.dll",
                Call.registerAddress 0x1000 "a.cpp" 1 0x90]).modules_.length]? = some "b.dll" ∧
        ((run ([Call.setCurrentModule "a.dll", Call.registerAddress 0x1000 "a.cpp" 1 0x90] ++
            Call.setCurrentModule "b.dll" ::
              [Call.markAddressAsExecuted 0x1000,
                Call.registerAddress 0x1000 "x.cpp" 3 0x90])).RegisterAddress 0x2000 "b.cpp" 7
            0x55).2.lineAt
              (run [Call.setCurrentModule "a.dll",
                Call.registerAddress 0x1000 "a.cpp" 1 0x90]).modules_.length "b.cpp" 7 =
          some (Line.mk
            ((run ([Call.setCurrentModule "a.dll", Call.registerAddress 0x1000 "a.cpp" 1 0x90] ++
              Call.setCurrentModule "b.dll" ::
                [Call.markAddressAsExecuted 0x1000,
                  Call.registerAddress 0x1000 "x.cpp" 3 0x90])).instructionsAt
                (run [Call.setCurrentModule "a.dll",
                  Call.registerAddress 0x1000 "a.cpp" 1 0x90]).modules_.length "b.cpp" 7 ++
                [Instruction.mk 0x55 false])) ∧
        ∃ q : InstructionPtr,
          mapFind ((run ([Call.setCurrentModule "a.dll",
              Call.registerAddress 0x1000 "a.cpp" 1 0x90] ++
            Call.setCurrentModule "b.dll" ::
              [Call.markAddressAsExecuted 0x1000,
                Call.registerAddress 0x1000 "x.cpp" 3 0x90])).RegisterAddress 0x2000 "b.cpp" 7
            0x55).2.addressLineMap_ 0x2000 = some (some q) ∧
          q.module = (run [Call.setCurrentModule "a.dll",
            Call.registerAddress 0x1000 "a.cpp" 1 0x90]).modules_.length ∧
          q.file = "b.cpp" ∧ q.line = 7) :=
  ⟨by simp,
    C11_setCurrentModule_appends
      [Call.setCurrentModule "a.dll", Call.registerAddress 0x1000 "a.cpp" 1 0x90]
      [Call.markAddressAsExecuted 0x1000, Call.registerAddress 0x1000 "x.cpp" 3 0x90] "b.dll"
      (by simp) 0x2000 "b.cpp" 7 0x55 rfl⟩

/-- Claim C12. When the same line of the same file is registered by two calls
that return, at `a1` while one module is current and at `a2` while another is,
the report has a line entry for it under each of the two module entries, which
are at different positions; a hit on `a1` returns its byte, makes the entry
under the first module executed and leaves the entry under the second with the
executed value it had, so not executed if it was not; and the same with the two
exchanged. -/
theorem C12_modules_are_independent (calls before1 later1 before2 later2 : List Call)
    (filename : String) (lineNumber a1 b1 a2 b2 : Nat) (name : String)
    (h1 : calls = before1 ++ Call.registerAddress a1 filename lineNumber b1 :: later1)
    (hok1 : ((run before1).RegisterAddress a1 filename lineNumber b1).1 = .ok ())
    (h2 : calls = before2 ++ Call.registerAddress a2 filename lineNumber b2 :: later2)
    (hok2 : ((run before2).RegisterAddress a2 filename lineNumber b2).1 = .ok ())
    (hmodules : (moduleNames before1).length ≠ (moduleNames before2).length) :
    (moduleNames before1).length - 1 ≠ (moduleNames before2).length - 1 ∧
      (((run calls).CreateCoverageData name).executed ((moduleNames before1).length - 1)
        filename lineNumber).isSome = true ∧
      (((run calls).CreateCoverageData name).executed ((moduleNames before2).length - 1)
        filename lineNumber).isSome = true ∧
      ((run calls).MarkAddressAsExecuted a1).1 = .ok b1 ∧
      (((run calls).MarkAddressAsExecuted a1).2.CreateCoverageData name).executed
        ((moduleNames before1).length - 1) filename lineNumber = some true ∧
      (((run calls).MarkAddressAsExecuted a1).2.CreateCoverageData name).executed
        ((moduleNames before2).length - 1) filename lineNumber =
          ((run calls).CreateCoverageData name).executed ((moduleNames before2).length - 1)
            filename lineNumber ∧
      ((run calls).MarkAddressAsExecuted a2).1 = .ok b2 ∧
      (((run calls).MarkAddressAsExecuted a2).2.CreateCoverageData name).executed
        ((moduleNames before2).length - 1) filename lineNumber = some true ∧
      (((run calls).MarkAddressAsExecuted a2).2.CreateCoverageData name).executed
        ((moduleNames before1).length - 1) filename lineNumber =
          ((run calls).CreateCoverageData name).executed ((moduleNames before1).length - 1)
            filename lineNumber := by
  obtain ⟨hpos1, hentry1, hbyte1, -, -, hexec1, hother1, -⟩ :=
    markAddressAsExecuted_frame before1 later1 a1 filename lineNumber b1 name hok1
  obtain ⟨hpos2, hentry2, hbyte2, -, -, hexec2, hother2, -⟩ :=
    markAddressAsExecuted_frame before2 later2 a2 filename lineNumber b2 name hok2
  rw [← h1] at hentry1 hbyte1 hexec1 hother1
  rw [← h2] at hentry2 hbyte2 hexec2 hother2
  have hne : (moduleNames before1).length - 1 ≠ (moduleNames before2).length - 1 := by omega
  exact ⟨hne, hentry1, hentry2, hbyte1, hexec1,
    hother1 _ _ _ (fun h => hne h.1.symm), hbyte2, hexec2, hother2 _ _ _ (fun h => hne h.1)⟩

/-- Claim C12 at the session with the shared header: line 5 of "common.h"
under "a.dll" at `0x1000` and under "b.dll" at `0x2000`. -/
theorem C12_modules_are_independent_witness :
    (sharedHeaderCalls =
        [Call.setCurrentModule "a.dll"] ++ Call.registerAddress 0x1000 "common.h" 5 0x90 ::
          [Call.setCurrentModule "b.dll", Call.registerAddress 0x2000 "common.h" 5 0x55]) ∧
      ((run [Call.setCurrentModule "a.dll"]).RegisterAddress 0x1000 "common.h" 5 0x90).1 =
        .ok () ∧
      (sharedHeaderCalls =
        [Call.setCurrentModule "a.dll", Call.registerAddress 0x1000 "common.h" 5 0x90,
          Call.setCurrentModule "b.dll"] ++
            Call.registerAddress 0x2000 "common.h" 5 0x55 :: []) ∧
      ((run [Call.setCurrentModule "a.dll", Call.registerAddress 0x1000 "common.h" 5 0x90,
        Call.setCurrentModule "b.dll"]).RegisterAddress 0x2000 "common.h" 5 0x55).1 = .ok () ∧
      (moduleNames [Call.setCurrentModule "a.dll"]).length ≠
        (moduleNames [Call.setCurrentModule "a.dll",
          Call.registerAddress 0x1000 "common.h" 5 0x90,
          Call.setCurrentModule "b.dll"]).length ∧
      ((moduleNames [Call.setCurrentModule "a.dll"]).length - 1 ≠
          (moduleNames [Call.setCurrentModule "a.dll",
            Call.registerAddress 0x1000 "common.h" 5 0x90,
            Call.setCurrentModule "b.dll"]).length - 1 ∧
        (((run sharedHeaderCalls).CreateCoverageData "report").executed
          ((moduleNames [Call.setCurrentModule "a.dll"]).length - 1) "common.h" 5).isSome =
            true ∧
        (((run sharedHeaderCalls).CreateCoverageData "report").executed
          ((moduleNames [Call.setCurrentModule "a.dll",
            Call.registerAddress 0x1000 "common.h" 5 0x90,
            Call.setCurrentModule "b.dll"]).length - 1) "common.h" 5).isSome = true ∧
        ((run sharedHeaderCalls).MarkAddressAsExecuted 0x1000).1 = .ok 0x90 ∧
        (((run sharedHeaderCalls).MarkAddressAsExecuted 0x1000).2.CreateCoverageData
          "report").executed ((moduleNames [Call.setCurrentModule "a.dll"]).length - 1)
            "common.h" 5 = some true ∧
        (((run sharedHeaderCalls).MarkAddressAsExecuted 0x1000).2.CreateCoverageData
          "report").executed
            ((moduleNames [Call.setCurrentModule "a.dll",
              Call.registerAddress 0x1000 "common.h" 5 0x90,
              Call.setCurrentModule "b.dll"]).length - 1) "common.h" 5 =
          ((run sharedHeaderCalls).CreateCoverageData "report").executed
            ((moduleNames [Call.setCurrentModule "a.dll",
              Call.registerAddress 0x1000 "common.h" 5 0x90,
              Call.setCurrentModule "b.dll"]).length - 1) "common.h" 5 ∧
        ((run sharedHeaderCalls).MarkAddressAsExecuted 0x2000).1 = .ok 0x55 ∧
        (((run sharedHeaderCalls).MarkAddressAsExecuted 0x2000).2.CreateCoverageData
          "report").executed
            ((moduleNames [Call.setCurrentModule "a.dll",
              Call.registerAddress 0x1000 "common.h" 5 0x90,
              Call.setCurrentModule "b.dll"]).length - 1) "common.h" 5 = some true ∧
        (((run sharedHeaderCalls).MarkAddressAsExecuted 0x2000).2.CreateCoverageData
          "report").executed ((moduleNames [Call.setCurrentModule "a.dll"]).length - 1)
            "common.h" 5 =
          ((run sharedHeaderCalls).CreateCoverageData "report").executed
            ((moduleNames [Call.setCurrentModule "a.dll"]).length - 1) "common.h" 5) :=
  ⟨rfl, rfl, rfl, rfl, by decide,
    C12_modules_are_independent sharedHeaderCalls [Call.setCurrentModule "a.dll"]
      [Call.setCurrentModule "b.dll", Call.registerAddress 0x2000 "common.h" 5 0x55]
      [Call.setCurrentModule "a.dll", Call.registerAddress 0x1000 "common.h" 5 0x90,
        Call.setCurrentModule "b.dll"] []
      "common.h" 5 0x1000 0x90 0x2000 0x55 "report" rfl rfl rfl rfl (by decide)⟩

/-- Claim C13. Whatever the state reached and whatever the next call, returning
or throwing: every module entry of the report is still there afterwards at the
same position with the same name, every file entry and every line entry is still
there under the same module position, a line entry that was executed is still
executed, and every address of the index is still in the index and a hit on it
still returns the same byte. -/
theorem C13_append_only_and_monotone (calls : List Call) (c : Call) (name : String) :
    (∀ (k : Nat) (mc : ModuleCoverage),
        ((run calls).CreateCoverageData name).modules[k]? = some mc →
          ∃ mc', (((run calls).after c).CreateCoverageData name).modules[k]? = some mc' ∧
            mc'.name = mc.name) ∧
      (∀ (k : Nat) (f : String),
        (((run calls).CreateCoverageData name).file k f).isSome = true →
          ((((run calls).after c).CreateCoverageData name).file k f).isSome = true) ∧
      (∀ (k : Nat) (f : String) (l : Nat) (e : Bool),
        ((run calls).CreateCoverageData name).executed k f l = some e →
          ∃ e', (((run calls).after c).CreateCoverageData name).executed k f l = some e' ∧
            (e = true → e' = true)) ∧
      ∀ a, a ∈ (run calls).addressLineMap_.map Prod.fst →
        a ∈ ((run calls).after c).addressLineMap_.map Prod.fst ∧
          ∃ b, ((run calls).MarkAddressAsExecuted a).1 = .ok b ∧
            (((run calls).after c).MarkAddressAsExecuted a).1 = .ok b := by
  have hwf := wellFormed_run calls
  have hgrow := ExecutedAddressManager.growsTo_after (run calls) c hwf
  refine ⟨?_, ?_, ?_, ?_⟩
  · intro k mc hmc
    have hname : ((run calls).modules_.map Module.name_)[k]? = some mc.name := by
      rw [← ExecutedAddressManager.names_CreateCoverageData (run calls) name, List.getElem?_map,
        hmc]
      rfl
    have hname' := hgrow.1 k mc.name hname
    rw [← ExecutedAddressManager.names_CreateCoverageData _ name, List.getElem?_map] at hname'
    cases hmc' : (((run calls).after c).CreateCoverageData name).modules[k]? with
    | none => simp [hmc'] at hname'
    | some mc' =>
      refine ⟨mc', rfl, ?_⟩
      simpa [hmc'] using hname'
  · intro k f hfile
    rw [ExecutedAddressManager.file_CreateCoverageData] at hfile ⊢
    rw [Option.isSome_map'] at hfile ⊢
    exact ExecutedAddressManager.fileAt_after_isSome (run calls) c k f hfile
  · intro k f l e hentry
    rw [ExecutedAddressManager.executed_CreateCoverageData] at hentry ⊢
    cases hline : (run calls).lineAt k f l with
    | none => simp [hline] at hentry
    | some line =>
      rw [hline] at hentry
      have hsome := ExecutedAddressManager.lineAt_after_isSome (run calls) c hwf k f l
        (by rw [hline]; rfl)
      obtain ⟨line', hline'⟩ := Option.isSome_iff_exists.1 hsome
      refine ⟨line'.HasLineBeenExecuted, by rw [hline']; rfl, ?_⟩
      intro he
      subst he
      have hexec : line.HasLineBeenExecuted = true := by simpa using hentry
      exact ExecutedAddressManager.hasLineBeenExecuted_of_growsTo hgrow k f l line line' hline
        hline' hexec
  · intro a ha
    obtain ⟨p, hp⟩ := Option.isSome_iff_exists.1 ((mapFind_isSome_iff _ a).2 ha)
    obtain ⟨q, rfl, -⟩ := indexValid_run calls a p hp
    have hp' := hgrow.2.1 a _ hp
    refine ⟨(mapFind_isSome_iff _ a).1 (by rw [hp']; rfl), ?_⟩
    obtain ⟨i, hi, hmark⟩ :=
      ExecutedAddressManager.MarkAddressAsExecuted_of_mapFind _ a q (indexValid_run calls) hp
    have hvalid' : ((run calls).after c).IndexValid := by
      rw [← run_concat]
      exact indexValid_run _
    obtain ⟨i', hi', hmark'⟩ :=
      ExecutedAddressManager.MarkAddressAsExecuted_of_mapFind _ a q hvalid' hp'
    obtain ⟨i'', hi'', hbyte, -⟩ := hgrow.2.2 q i hi
    rw [hi'] at hi''
    cases hi''
    exact ⟨i.instruction_, by rw [hmark], by rw [hmark', hbyte]⟩

/-- Claim C14. A hit on an address whose registration returned returns the
byte and changes nothing but the flag of the one instruction the address is
bound to: the report has the same modules, files and line numbers as before,
the index is the same, every line entry other than that of the line of the
registration keeps its executed value, that line is executed afterwards, and
every other instruction is as it was. -/
theorem C14_markAddressAsExecuted_frame (before later : List Call) (address : Nat)
    (filename : String) (lineNumber instructionValue : Nat) (name : String)
    (hregistered :
      ((run before).RegisterAddress address filename lineNumber instructionValue).1 = .ok ()) :
    ((run (before ++ Call.registerAddress address filename lineNumber instructionValue ::
        later)).MarkAddressAsExecuted address).1 = .ok instructionValue ∧
      (((run (before ++ Call.registerAddress address filename lineNumber instructionValue ::
        later)).MarkAddressAsExecuted address).2.CreateCoverageData name).outline =
          ((run (before ++ Call.registerAddress address filename lineNumber instructionValue ::
            later)).CreateCoverageData name).outline ∧
      ((run (before ++ Call.registerAddress address filename lineNumber instructionValue ::
        later)).MarkAddressAsExecuted address).2.addressLineMap_ =
          (run (before ++ Call.registerAddress address filename lineNumber instructionValue ::
            later)).addressLineMap_ ∧
      (∀ (k : Nat) (f : String) (l : Nat),
        ¬ (k = (moduleNames before).length - 1 ∧ f = filename ∧ l = lineNumber) →
          (((run (before ++ Call.registerAddress address filename lineNumber instructionValue ::
            later)).MarkAddressAsExecuted address).2.CreateCoverageData name).executed k f l =
              ((run (before ++
                Call.registerAddress address filename lineNumber instructionValue ::
                  later)).CreateCoverageData name).executed k f l) ∧
      (((run (before ++ Call.registerAddress address filename lineNumber instructionValue ::
        later)).MarkAddressAsExecuted address).2.CreateCoverageData name).executed
          ((moduleNames before).length - 1) filename lineNumber = some true ∧
      ∃ q : InstructionPtr,
        mapFind (run (before ++
          Call.registerAddress address filename lineNumber instructionValue ::
            later)).addressLineMap_ address = some (some q) ∧
        ((run (before ++ Call.registerAddress address filename lineNumber instructionValue ::
          later)).MarkAddressAsExecuted address).2.deref q =
            some (Instruction.mk instructionValue true) ∧
        ∀ p, p ≠ q →
          ((run (before ++ Call.registerAddress address filename lineNumber instructionValue ::
            later)).MarkAddressAsExecuted address).2.deref p =
              (run (before ++
                Call.registerAddress address filename lineNumber instructionValue ::
                  later)).deref p := by
  obtain ⟨-, -, hbyte, hidx, houtline, hexec, hother, hnode⟩ :=
    markAddressAsExecuted_frame before later address filename lineNumber instructionValue name
      hregistered
  exact ⟨hbyte, houtline, hidx, hother, hexec, hnode⟩

/-- Claim C14 at a concrete state: `0x1004` registered on line 20 of "main.cpp"
in "app.dll", then `0x1008` on the same line, then the hit on `0x1004`. -/
theorem C14_markAddressAsExecuted_frame_witness :
    ((run [Call.setCurrentModule "app.dll"]).RegisterAddress 0x1004 "main.cpp" 20 0x90).1 =
        .ok () ∧
      (((run sameLineCalls).MarkAddressAsExecuted 0x1004).1 = .ok 0x90 ∧
        (((run sameLineCalls).MarkAddressAsExecuted 0x1004).2.CreateCoverageData
          "report").outline = ((run sameLineCalls).CreateCoverageData "report").outline ∧
        ((run sameLineCalls).MarkAddressAsExecuted 0x1004).2.addressLineMap_ =
          (run sameLineCalls).addressLineMap_ ∧
        (∀ (k : Nat) (f : String) (l : Nat),
          ¬ (k = (moduleNames [Call.setCurrentModule "app.dll"]).length - 1 ∧
              f = "main.cpp" ∧ l = 20) →
            (((run sameLineCalls).MarkAddressAsExecuted 0x1004).2.CreateCoverageData
              "report").executed k f l =
                ((run sameLineCalls).CreateCoverageData "report").executed k f l) ∧
        (((run sameLineCalls).MarkAddressAsExecuted 0x1004).2.CreateCoverageData
          "report").executed ((moduleNames [Call.setCurrentModule "app.dll"]).length - 1)
            "main.cpp" 20 = some true ∧
        ∃ q : InstructionPtr,
          mapFind (run sameLineCalls).addressLineMap_ 0x1004 = some (some q) ∧
          ((run sameLineCalls).MarkAddressAsExecuted 0x1004).2.deref q =
            some (Instruction.mk 0x90 true) ∧
          ∀ p, p ≠ q →
            ((run sameLineCalls).MarkAddressAsExecuted 0x1004).2.deref p =
              (run sameLineCalls).deref p) :=
  ⟨rfl,
    C14_markAddressAsExecuted_frame [Call.setCurrentModule "app.dll"]
      [Call.registerAddress 0x1008 "main.cpp" 20 0xCC] 0x1004 "main.cpp" 20 0x90 "report" rfl⟩

/-- Claim C15. In every state reached from a fresh manager by any calls,
returning or throwing: every entry of the index holds a pointer that is not
null and refers to an instruction of a line of a file of a module, so that
`MarkAddressAsExecuted` never throws "Line cannot be null" and never follows an
invalid pointer; and two distinct addresses are never bound to the same
instruction. -/
theorem C15_index_invariant (calls : List Call) :
    (∀ (a : Nat) (p : Option InstructionPtr),
        mapFind (run calls).addressLineMap_ a = some p →
          ∃ (q : InstructionPtr) (module : Module) (file : File) (line : Line)
            (i : Instruction),
            p = some q ∧ (run calls).modules_[q.module]? = some module ∧
            mapFind module.files_ q.file = some file ∧
            mapFind file.lines q.line = some line ∧
            line.instructions_[q.index]? = some i) ∧
      (∀ a, ((run calls).MarkAddressAsExecuted a).1 ≠ .error .lineCannotBeNull ∧
        ((run calls).MarkAddressAsExecuted a).1 ≠ .error .invalidPointer) ∧
      ∀ (a a' : Nat) (q : InstructionPtr),
        mapFind (run calls).addressLineMap_ a = some (some q) →
          mapFind (run calls).addressLineMap_ a' = some (some q) → a = a' := by
  refine ⟨?_, ?_, indexInjective_run calls⟩
  · intro a p hp
    obtain ⟨q, hq, hsome⟩ := indexValid_run calls a p hp
    obtain ⟨i, hi⟩ := Option.isSome_iff_exists.1 hsome
    obtain ⟨module, file, line, hmodule, hfile, hline, hinstr⟩ :=
      (deref_eq_some_iff (run calls) q i).1 hi
    exact ⟨q, module, file, line, i, hq, hmodule, hfile, hline, hinstr⟩
  · intro a
    cases hfind : mapFind (run calls).addressLineMap_ a with
    | none =>
      have herr := (ExecutedAddressManager.MarkAddressAsExecuted_unknown_iff (run calls) a).2
        hfind
      rw [herr]
      exact ⟨by simp, by simp⟩
    | some p =>
      obtain ⟨q, rfl, -⟩ := indexValid_run calls a p hfind
      obtain ⟨i, -, hmark⟩ := ExecutedAddressManager.MarkAddressAsExecuted_of_mapFind _ a q
        (indexValid_run calls) hfind
      rw [hmark]
      exact ⟨by simp, by simp⟩

end CppCoverage
